import Mathlib

/-!
# uitabot web client: message protocol and live playlist

A shallow embedding of `web-client/src/app/message.js` (message classes, `str`,
`parse`, `EventDispatcher`) and of the playlist component
`web-client/src/components/App/Dashboard/LivePlaylist/LivePlaylist.js`, together with
the parts of the JavaScript runtime these functions rely on (`String(...)`,
`JSON.stringify`, `JSON.parse`).

Conventions of the embedding.
* JavaScript strings are Lean strings (sequences of Unicode scalar values); strings
  holding unpaired surrogate code units are outside the model.
* JavaScript numbers are the integers `n` with `|n| < 2 ^ 53`; fractional numbers need
  binary64 rounding and are outside the model.
* A thrown exception is an `Except.error`; `setState` takes effect at once.
-/

set_option autoImplicit false

namespace Uitabot

/-! ## JavaScript values -/

/-- The JavaScript values that message fields and parsed JSON documents range over.
An object is the list of its own enumerable string-keyed properties in insertion
order. -/
inductive JSValue where
  | undefined
  | null
  | bool (b : Bool)
  | num (n : Int)
  | str (s : String)
  | arr (xs : List JSValue)
  | obj (props : List (String × JSValue))

/-- Exceptions raised by the modelled code. `TypeError none` is a `TypeError` raised by
the runtime itself (reading a property of `undefined`, iterating `undefined`), whose
message text is chosen by the engine; `TypeError (some msg)` is `new TypeError(msg)`
thrown by the source. -/
inductive JSError where
  | SyntaxError
  | TypeError (message : Option String)
  | InternalError (message : String)
  deriving DecidableEq, Repr

/-- The error class of an exception, what `instanceof` and `e.name` observe. -/
inductive ErrorClass where
  | SyntaxError
  | TypeError
  | InternalError
  deriving DecidableEq, Repr

/-- Class of a thrown error. -/
def JSError.errorClass : JSError → ErrorClass
  | .SyntaxError => .SyntaxError
  | .TypeError _ => .TypeError
  | .InternalError _ => .InternalError

mutual
/-- The characters of `String(v)` (the abstract operation ToString): arrays are joined
with commas, `null` and `undefined` elements giving the empty string; a plain object
gives `[object Object]`. -/
def toJSChars : JSValue → List Char
  | .undefined => "undefined".data
  | .null => "null".data
  | .bool b => if b then "true".data else "false".data
  | .num n => (toString n).data
  | .str s => s.data
  | .arr xs => joinChars xs
  | .obj _ => "[object Object]".data
termination_by structural v => v
/-- The characters of `xs.join(",")` as used by `String(xs)` for an array `xs`. -/
def joinChars : List JSValue → List Char
  | [] => []
  | x :: xs =>
    (match x with
      | .undefined => []
      | .null => []
      | _ => toJSChars x) ++
    (match xs with
      | [] => []
      | _ :: _ => ',' :: joinChars xs)
termination_by structural xs => xs
end

/-- The JavaScript conversion `String(v)`. -/
def toJSString (v : JSValue) : String := String.mk (toJSChars v)

/-- Own-property lookup in a property list; the first entry with the key. -/
def lookupProp {α : Type} : List (String × α) → String → Option α
  | [], _ => none
  | (k, v) :: ps, key => if k = key then some v else lookupProp ps key

/-- Assignment `obj[key] = v` on a property list: an existing property keeps its
position and takes the new value, a new property is appended. -/
def setProp {α : Type} : List (String × α) → String → α → List (String × α)
  | [], key, v => [(key, v)]
  | (k, w) :: ps, key, v => if k = key then (k, v) :: ps else (k, w) :: setProp ps key v

/-! ## JSON.stringify -/

namespace JSON

/-- One character of a string as `JSON.stringify` writes it (QuoteJSONString). -/
def quoteChar (c : Char) : List Char :=
  if c = '"' then ['\\', '"']
  else if c = '\\' then ['\\', '\\']
  else if c = Char.ofNat 8 then ['\\', 'b']
  else if c = Char.ofNat 12 then ['\\', 'f']
  else if c = Char.ofNat 10 then ['\\', 'n']
  else if c = Char.ofNat 13 then ['\\', 'r']
  else if c = Char.ofNat 9 then ['\\', 't']
  else if c.toNat < 32 then
    ['\\', 'u', '0', '0', Nat.digitChar (c.toNat / 16), Nat.digitChar (c.toNat % 16)]
  else [c]

/-- The escaped body of a string, without the surrounding quotes. -/
def quoteBody : List Char → List Char
  | [] => []
  | c :: cs => quoteChar c ++ quoteBody cs

/-- A string literal as `JSON.stringify` writes it. -/
def quote (s : String) : List Char := '"' :: (quoteBody s.data ++ ['"'])

/-- Joins the serialised members or elements with commas. -/
def joinComma : List (List Char) → List Char
  | [] => []
  | [x] => x
  | x :: y :: xs => x ++ ',' :: joinComma (y :: xs)

mutual
/-- SerializeJSONProperty: the text of a value, `none` for `undefined` (which
`JSON.stringify` leaves out of objects and writes as `null` inside arrays). -/
def serialize : JSValue → Option (List Char)
  | .undefined => none
  | .null => some "null".data
  | .bool b => some (if b then "true".data else "false".data)
  | .num n => some (toString n).data
  | .str s => some (quote s)
  | .arr xs => some ('[' :: (joinComma (serializeElements xs) ++ [']']))
  | .obj ps => some ('{' :: (joinComma (serializeMembers ps) ++ ['}']))
termination_by structural v => v
/-- The serialised elements of an array. -/
def serializeElements : List JSValue → List (List Char)
  | [] => []
  | x :: xs => (serialize x).getD "null".data :: serializeElements xs
termination_by structural xs => xs
/-- The serialised `"key":value` members of an object, skipping `undefined` values. -/
def serializeMembers : List (String × JSValue) → List (List Char)
  | [] => []
  | (k, v) :: ps =>
    match serialize v with
    | none => serializeMembers ps
    | some t => (quote k ++ ':' :: t) :: serializeMembers ps
termination_by structural ps => ps
end

/-- The text of one member of an object whose value is a string. -/
def memberText (kv : String × String) : List Char := quote kv.1 ++ ':' :: quote kv.2

/-- The properties of an object all of whose values are strings. -/
def strProps (kvs : List (String × String)) : List (String × JSValue) :=
  kvs.map fun kv => (kv.1, .str kv.2)

/-- The text `JSON.stringify(obj)` of an object with the given properties. -/
def stringify (props : List (String × JSValue)) : String :=
  String.mk ('{' :: (joinComma (serializeMembers props) ++ ['}']))

/-! ## JSON.parse -/

/-- JSON white space: tab, line feed, carriage return, space. -/
def isWhitespace (c : Char) : Bool :=
  c = ' ' || c = Char.ofNat 9 || c = Char.ofNat 10 || c = Char.ofNat 13

/-- Drops leading white space. -/
def skipWs : List Char → List Char
  | [] => []
  | c :: cs => if isWhitespace c then skipWs cs else c :: cs

/-- Value of a hexadecimal digit. -/
def hexVal (c : Char) : Option Nat :=
  if '0' ≤ c ∧ c ≤ '9' then some (c.toNat - 48)
  else if 'a' ≤ c ∧ c ≤ 'f' then some (c.toNat - 87)
  else if 'A' ≤ c ∧ c ≤ 'F' then some (c.toNat - 55)
  else none

/-- The code unit written by the four hexadecimal digits of a `\u` escape. -/
def hex4 (a b c d : Char) : Option Nat :=
  match hexVal a, hexVal b, hexVal c, hexVal d with
  | some w, some x, some y, some z => some (((w * 16 + x) * 16 + y) * 16 + z)
  | _, _, _, _ => none

/-- The character of a single-character escape `\e`. -/
def unescape (e : Char) : Option Char :=
  if e = '"' then some '"'
  else if e = '\\' then some '\\'
  else if e = '/' then some '/'
  else if e = 'b' then some (Char.ofNat 8)
  else if e = 'f' then some (Char.ofNat 12)
  else if e = 'n' then some (Char.ofNat 10)
  else if e = 'r' then some (Char.ofNat 13)
  else if e = 't' then some (Char.ofNat 9)
  else none

/-- Reads the low half of a surrogate pair, written `\\uXXXX`, after the high half `u`,
and gives the character of the pair. -/
def readLowSurrogate (u : Nat) : List Char → Option (Char × List Char)
  | b :: v :: l1 :: l2 :: l3 :: l4 :: cs =>
    if b = '\\' ∧ v = 'u' then
      match hex4 l1 l2 l3 l4 with
      | none => none
      | some lo =>
        if 0xDC00 ≤ lo ∧ lo < 0xE000 then
          some (Char.ofNat (0x10000 + (u - 0xD800) * 0x400 + (lo - 0xDC00)), cs)
        else none
    else none
  | _ => none

/-- Reads the four digits of a `\\u` escape. A high surrogate must be followed by the
escape of a low surrogate, the two giving one character. -/
def readUnicode : List Char → Option (Char × List Char)
  | h1 :: h2 :: h3 :: h4 :: cs =>
    match hex4 h1 h2 h3 h4 with
    | none => none
    | some u =>
      if u < 0xD800 ∨ 0xE000 ≤ u then some (Char.ofNat u, cs)
      else if u < 0xDC00 then readLowSurrogate u cs
      else none
  | _ => none

/-- Reads an escape sequence whose backslash has been consumed. -/
def readEscape : List Char → Option (Char × List Char)
  | [] => none
  | e :: cs =>
    if e = 'u' then readUnicode cs
    else
      match unescape e with
      | none => none
      | some ch => some (ch, cs)

/-- Reads one character of a string body other than the closing quote: an escape
sequence, or a character that is not a control character. -/
def readChar : List Char → Option (Char × List Char)
  | [] => none
  | c :: cs =>
    if c = '\\' then readEscape cs
    else if c.toNat < 32 then none
    else some (c, cs)

/-- Reads a string literal whose opening quote has been consumed; returns the decoded
characters and the input after the closing quote. The first argument bounds the number
of characters read; the length of the input is always enough. -/
def parseString : Nat → List Char → Option (List Char × List Char)
  | 0, _ => none
  | fuel + 1, cs =>
    match cs with
    | [] => none
    | c :: rest =>
      if c = '"' then some ([], rest)
      else
        match readChar (c :: rest) with
        | none => none
        | some (ch, rest1) =>
          match parseString fuel rest1 with
          | none => none
          | some (s, rest2) => some (ch :: s, rest2)

/-- Reads a string literal whose opening quote has been consumed. -/
def parseStringLit (cs : List Char) : Option (List Char × List Char) :=
  parseString cs.length cs

/-- Reads a maximal run of decimal digits, most significant first, onto `acc`. -/
def parseDigits : List Char → Nat → Nat × List Char
  | [], acc => (acc, [])
  | c :: cs, acc =>
    if '0' ≤ c ∧ c ≤ '9' then parseDigits cs (acc * 10 + (c.toNat - 48)) else (acc, c :: cs)

/-- True when the input goes on with a fraction or an exponent. -/
def startsFraction : List Char → Bool
  | [] => false
  | c :: _ => c = '.' || c = 'e' || c = 'E'

/-- Reads an unsigned integer literal: `0`, or a digit run without leading zero. Number
texts with a fraction or an exponent, or beyond the safe integers, are not read. -/
def parseNat : List Char → Option (Nat × List Char)
  | [] => none
  | c :: cs =>
    if c = '0' then
      if startsFraction cs then none else some (0, cs)
    else if '1' ≤ c ∧ c ≤ '9' then
      let r := parseDigits cs (c.toNat - 48)
      if startsFraction r.2 ∨ 2 ^ 53 ≤ r.1 then none else some r
    else none

/-- Reads a number literal. -/
def parseNumber : List Char → Option (Int × List Char)
  | [] => none
  | c :: cs =>
    if c = '-' then
      match parseNat cs with
      | none => none
      | some (n, rest) => some (-(n : Int), rest)
    else
      match parseNat (c :: cs) with
      | none => none
      | some (n, rest) => some ((n : Int), rest)

/-- Consumes the given literal characters from the front of the input. -/
def expect : List Char → List Char → Option (List Char)
  | [], cs => some cs
  | _ :: _, [] => none
  | l :: ls, c :: cs => if l = c then expect ls cs else none

mutual
/-- Reads one JSON value after optional white space. The first argument bounds the
number of nested calls; the length of the input is always enough. -/
def parseValue : Nat → List Char → Option (JSValue × List Char)
  | 0, _ => none
  | fuel + 1, cs =>
    match skipWs cs with
    | [] => none
    | c :: rest =>
      if c = '{' then
        match skipWs rest with
        | [] => none
        | d :: rest1 =>
          if d = '}' then some (.obj [], rest1)
          else
            match parseMembers fuel (d :: rest1) [] with
            | none => none
            | some (ps, rest2) => some (.obj ps, rest2)
      else if c = '[' then
        match skipWs rest with
        | [] => none
        | d :: rest1 =>
          if d = ']' then some (.arr [], rest1)
          else
            match parseElements fuel (d :: rest1) with
            | none => none
            | some (xs, rest2) => some (.arr xs, rest2)
      else if c = '"' then
        match parseStringLit rest with
        | none => none
        | some (s, rest1) => some (.str (String.mk s), rest1)
      else if c = 't' then (expect "rue".data rest).map fun r => (.bool true, r)
      else if c = 'f' then (expect "alse".data rest).map fun r => (.bool false, r)
      else if c = 'n' then (expect "ull".data rest).map fun r => (.null, r)
      else
        match parseNumber (c :: rest) with
        | none => none
        | some (n, rest1) => some (.num n, rest1)
/-- Reads the members of a non-empty object up to and including the closing brace,
adding them to `acc` the way property assignment does (a repeated key keeps its first
position and takes the last value). -/
def parseMembers : Nat → List Char → List (String × JSValue) →
    Option (List (String × JSValue) × List Char)
  | 0, _, _ => none
  | fuel + 1, cs, acc =>
    match skipWs cs with
    | [] => none
    | q :: rest =>
      if q = '"' then
        match parseStringLit rest with
        | none => none
        | some (k, rest1) =>
          match skipWs rest1 with
          | [] => none
          | colon :: rest2 =>
            if colon = ':' then
              match parseValue fuel rest2 with
              | none => none
              | some (v, rest3) =>
                match skipWs rest3 with
                | [] => none
                | d :: rest4 =>
                  if d = ',' then parseMembers fuel rest4 (setProp acc (String.mk k) v)
                  else if d = '}' then some (setProp acc (String.mk k) v, rest4)
                  else none
            else none
      else none
/-- Reads the elements of a non-empty array up to and including the closing bracket. -/
def parseElements : Nat → List Char → Option (List JSValue × List Char)
  | 0, _ => none
  | fuel + 1, cs =>
    match parseValue fuel cs with
    | none => none
    | some (v, rest) =>
      match skipWs rest with
      | [] => none
      | d :: rest1 =>
        if d = ',' then
          match parseElements fuel rest1 with
          | none => none
          | some (vs, rest2) => some (v :: vs, rest2)
        else if d = ']' then some ([v], rest1)
        else none
end

/-- The builtin `JSON.parse(text)`: the value of the text, or a `SyntaxError`. -/
def parse (text : String) : Except JSError JSValue :=
  match parseValue (text.data.length + 1) text.data with
  | none => .error .SyntaxError
  | some (v, rest) =>
    match skipWs rest with
    | [] => .ok v
    | _ :: _ => .error .SyntaxError

end JSON

/-! ## message.js -/

/-- The classes of `message.js`: `AbstractMessage` and its five subclasses. -/
inductive MessageClass where
  | AbstractMessage
  | AuthCodeMessage
  | AuthFailMessage
  | AuthSessionMessage
  | AuthSucceedMessage
  | PlayURLMessage
  deriving DecidableEq, Repr

/-- The static getter `header` of each class. -/
def MessageClass.header : MessageClass → String
  | .AbstractMessage => "base"
  | .AuthCodeMessage => "auth.code"
  | .AuthFailMessage => "auth.fail"
  | .AuthSessionMessage => "auth.session"
  | .AuthSucceedMessage => "auth.succeed"
  | .PlayURLMessage => "play.url"

/-- The parameters of each constructor; the constructor assigns each one to the
property of the same name (`this.code = code`), in this order. -/
def MessageClass.params : MessageClass → List String
  | .AbstractMessage => []
  | .AuthCodeMessage => ["code"]
  | .AuthFailMessage => []
  | .AuthSessionMessage => ["handle", "secret"]
  | .AuthSucceedMessage => ["username", "session_handle", "session_secret"]
  | .PlayURLMessage => ["url"]

/-- A message object: its class (`this.constructor`) and its own enumerable
properties in the order the constructor created them. -/
structure Message where
  ctor : MessageClass
  props : List (String × JSValue)

/-- The assignments of a constructor body: each parameter in turn is stored under its
name; a parameter without an argument is `undefined`, surplus arguments are dropped. -/
def assignParams : List String → List JSValue → List (String × JSValue)
  | [], _ => []
  | p :: ps, args => (p, args.headD .undefined) :: assignParams ps args.tail

/-- The expression `new C(...args)`. -/
def MessageClass.new (C : MessageClass) (args : List JSValue) : Message :=
  ⟨C, assignParams C.params args⟩

/-- The object built by `AbstractMessage.str` before it is serialised: `header` first,
then every property of the message, converted with `String(...)`. -/
def Message.strObject (m : Message) : List (String × JSValue) :=
  m.props.foldl (fun obj property => setProp obj property.1 (.str (toJSString property.2)))
    [("header", .str m.ctor.header)]

/-- The method `AbstractMessage.str`. -/
def Message.str (m : Message) : String :=
  JSON.stringify m.strObject

/-- The table `VALID_MESSAGES`: header, class and required field names. -/
def VALID_MESSAGES : List (String × MessageClass × List String) :=
  [("auth.code", .AuthCodeMessage, ["code"]),
   ("auth.fail", .AuthFailMessage, []),
   ("auth.session", .AuthSessionMessage, ["handle", "secret"]),
   ("auth.succeed", .AuthSucceedMessage, ["username", "session_handle", "session_secret"]),
   ("play.url", .PlayURLMessage, ["url"])]

/-- The text of the `TypeError` thrown by `parse` for a missing field. -/
def mismatchedParameters : String :=
  "Mismatched parmeters between parsed message and associated type"

/-- The property read `v[name]` for a name that no builtin prototype defines (`header`
and the field names of the table): reading from `null` or `undefined` throws, a
primitive or an array has no such property. -/
def getProperty (v : JSValue) (name : String) : Except JSError JSValue :=
  match v with
  | .undefined => .error (.TypeError none)
  | .null => .error (.TypeError none)
  | .obj ps => .ok ((lookupProp ps name).getD .undefined)
  | _ => .ok .undefined

/-- The test `name in v` for a name that no builtin prototype defines; the operator
throws on a primitive. -/
def hasProperty (v : JSValue) (name : String) : Except JSError Bool :=
  match v with
  | .obj ps => .ok (lookupProp ps name).isSome
  | .arr _ => .ok false
  | _ => .error (.TypeError none)

/-- The loop of `parse` over the required fields: pushes `obj[arg]` for each field that
is `in obj`, throws the mismatch `TypeError` at the first one that is not. -/
def collectArgs (obj : JSValue) : List String → List JSValue → Except JSError (List JSValue)
  | [], args => .ok args
  | arg :: rest, args =>
    match hasProperty obj arg with
    | .error e => .error e
    | .ok true =>
      match getProperty obj arg with
      | .error e => .error e
      | .ok v => collectArgs obj rest (args ++ [v])
    | .ok false => .error (.TypeError (some mismatchedParameters))

/-- The body of `parse` after `JSON.parse`. The key `obj.header` is converted to a
property key with `String(...)`. A key that is not an own key of `VALID_MESSAGES` gives
`undefined` or a member of `Object.prototype`, whose element `[1]` cannot be read or
iterated: the runtime raises a `TypeError`. -/
def parseObject (obj : JSValue) : Except JSError Message :=
  match getProperty obj "header" with
  | .error e => .error e
  | .ok header =>
    match lookupProp VALID_MESSAGES (toJSString header) with
    | none => .error (.TypeError none)
    | some (ctor, fields) =>
      match collectArgs obj fields [] with
      | .error e => .error e
      | .ok args => .ok (ctor.new args)

/-- The function `parse` of `message.js`. -/
def parse (message : String) : Except JSError Message :=
  match JSON.parse message with
  | .error e => .error e
  | .ok obj => parseObject obj

/-- An argument of `EventDispatcher.dispatch`: an instance of a message class, or any
other JavaScript value. -/
inductive DispatchArg where
  | message (m : Message)
  | value (v : JSValue)

/-- The test `x instanceof AbstractMessage`. -/
def instanceofAbstractMessage : DispatchArg → Bool
  | .message _ => true
  | .value _ => false

/-- The conversion ToBoolean behind `!x`. -/
def toBoolean : DispatchArg → Bool
  | .message _ => true
  | .value .undefined => false
  | .value .null => false
  | .value (.bool b) => b
  | .value (.num n) => n != 0
  | .value (.str s) => s != ""
  | .value (.arr _) => true
  | .value (.obj _) => true

/-- An `EventDispatcher` object: its two handler properties. A handler acts on the
state `σ` of the surrounding program and may throw. -/
structure EventDispatcher (σ : Type) where
  onAuthFail : Message → σ → Except JSError σ
  onAuthSucceed : Message → σ → Except JSError σ

/-- The constructor of `EventDispatcher`: both handlers are `m => {}`. -/
def EventDispatcher.new {σ : Type} : EventDispatcher σ :=
  ⟨fun _ s => .ok s, fun _ s => .ok s⟩

/-- The text of the error thrown by the guard of `dispatch`. -/
def requiresSubclass : String :=
  "EventDispatcher.dispatch requires a subclass of AbstractMessage"

/-- The text of the error thrown by the `default` branch of `dispatch`. -/
def notImplemented : String :=
  "EventDispatcher.dispatch has not implemented this message"

/-- The method `EventDispatcher.dispatch`. The guard `!message instanceof AbstractMessage`
is `(!message) instanceof AbstractMessage`: the test is applied to a boolean. The
`switch` reads `message.constructor`, which throws for `null` and `undefined` and is a
builtin constructor for every other value that is not a message. The `default` branch
evaluates `new InternalError(...)`. -/
def EventDispatcher.dispatch {σ : Type} (d : EventDispatcher σ) (message : DispatchArg)
    (s : σ) : Except JSError σ :=
  if instanceofAbstractMessage (.value (.bool (!toBoolean message))) then
    .error (.TypeError (some requiresSubclass))
  else
    match message with
    | .value .undefined => .error (.TypeError none)
    | .value .null => .error (.TypeError none)
    | .value _ => .error (.InternalError notImplemented)
    | .message m =>
      match m.ctor with
      | .AuthFailMessage => d.onAuthFail m s
      | .AuthSucceedMessage => d.onAuthSucceed m s
      | _ => .error (.InternalError notImplemented)

/-- A dispatcher whose two handlers record their own name and the message they are
called with. -/
def EventDispatcher.recording : EventDispatcher (List (String × Message)) :=
  ⟨fun m log => .ok (log ++ [("onAuthFail", m)]),
   fun m log => .ok (log ++ [("onAuthSucceed", m)])⟩

/-- The property key that `VALID_MESSAGES[obj.header]` looks up for a parsed object
with the given properties. -/
def headerKey (props : List (String × JSValue)) : String :=
  toJSString ((lookupProp props "header").getD .undefined)

/-! ## LivePlaylist.js -/

/-- A track of the queue, as sent by the server. Times are in seconds. -/
structure Track where
  id : String
  title : String
  url : String
  thumbnail : String
  duration : ℚ
  offset : ℚ
  live : Bool
  deriving DecidableEq

/-- Modelled from the spec: the outbound message classes of `utils/Message`, which is
not among the sources; the spec lists `play.queue.move`(track_id, new_index) and
`play.queue.remove`(track_id). A value stands for the frame `new C(...).str()` handed to
`socket.send`. -/
inductive OutboundMessage where
  | PlayQueueMoveMessage (track_id : String) (new_index : Nat)
  | PlayQueueRemoveMessage (track_id : String)
  | PlayQueueGetMessage
  | PlayStatusGetMessage
  deriving DecidableEq

/-- The function `arrayMove` of react-sortable-hoc. An array element `none` is
`undefined`. The array is copied, padded with `undefined` up to and including
`newIndex` when that index is past the end, and the element spliced out at
`previousIndex` is spliced in at `newIndex`. -/
def arrayMove {α : Type} (arr : List (Option α)) (previousIndex newIndex : Nat) :
    List (Option α) :=
  let array := arr
  let array :=
    if newIndex ≥ array.length then
      array ++ List.replicate (newIndex - array.length + 1) none
    else array
  let removed := (array.get? previousIndex).getD none
  let array := array.eraseIdx previousIndex
  array.take newIndex ++ removed :: array.drop newIndex

/-- The remainder operator `x % m` of JavaScript on exact numbers: the quotient is
truncated toward zero, so the result has the sign of `x`. -/
def jsRem (x m : ℚ) : ℚ :=
  x - m * (if 0 ≤ x / m then ⌊x / m⌋ else ⌈x / m⌉)

/-- A sample track with the given id, ten seconds long. -/
def sampleTrack (id : String) : Track :=
  { id := id, title := "", url := "", thumbnail := "", duration := 10, offset := 0,
    live := false }

/-- The `LivePlaylist` component with the part of its environment that it acts on.
Times are in milliseconds, as read from `performance.now()`. -/
structure LivePlaylist where
  /-- The state field `this.state.queue`; an element `none` is `undefined`. -/
  queue : List (Option Track)
  /-- The state field `this.state.playCurrentTime`. -/
  playCurrentTime : ℚ
  isPlaying : Bool
  playStartTime : ℚ
  /-- The field `this.playUpdateTask`: `null`, or the identifier of the last timeout set. -/
  playUpdateTask : Option Nat
  skipPlayUpdateTask : Bool
  /-- The frames handed to `this.props.socket.send`, oldest first. -/
  sent : List OutboundMessage
  /-- The pending timeouts of the window: identifier and delay. -/
  timers : List (Nat × ℚ)
  /-- The identifier that the next `setTimeout` returns. -/
  nextTimer : Nat

/-- The constructor of `LivePlaylist`, in a window without pending timeouts. -/
def LivePlaylist.new : LivePlaylist :=
  { queue := [], playCurrentTime := 0, isPlaying := false, playStartTime := 0,
    playUpdateTask := none, skipPlayUpdateTask := false, sent := [], timers := [],
    nextTimer := 1 }

/-- The builtin `setTimeout(update, delay)`: registers a pending timeout and returns
its identifier. -/
def LivePlaylist.setTimeout (c : LivePlaylist) (delay : ℚ) : LivePlaylist × Nat :=
  ({ c with timers := c.timers ++ [(c.nextTimer, delay)], nextTimer := c.nextTimer + 1 },
    c.nextTimer)

/-- The builtin `clearInterval(id)`, which also cancels a timeout with that identifier. -/
def LivePlaylist.clearInterval (c : LivePlaylist) (id : Nat) : LivePlaylist :=
  { c with timers := c.timers.filter fun t => t.1 != id }

/-- A mounted playlist showing the sample tracks `A`, `B`, `C`. -/
def LivePlaylist.sample : LivePlaylist :=
  { LivePlaylist.new with
    queue := [some (sampleTrack "A"), some (sampleTrack "B"), some (sampleTrack "C")] }

/-- The method `resetPlayProgress`; `now` is the reading of `performance.now()`. -/
def LivePlaylist.resetPlayProgress (c : LivePlaylist) (now : ℚ) : LivePlaylist :=
  let c := { c with playStartTime := now }
  { c with playCurrentTime := c.playStartTime }

/-- The method `handleQueueChange`. -/
def LivePlaylist.handleQueueChange (c : LivePlaylist) (newQueue : List (Option Track))
    (now : ℚ) : LivePlaylist :=
  let c := { c with queue := newQueue }
  c.resetPlayProgress now

/-- The method `handleSortStart`. -/
def LivePlaylist.handleSortStart (c : LivePlaylist) : LivePlaylist :=
  { c with skipPlayUpdateTask := true }

/-- The method `queueMove`. Reading `.id` of a missing or `undefined` element throws. -/
def LivePlaylist.queueMove (c : LivePlaylist) (oldIndex newIndex : Nat) :
    Except JSError LivePlaylist :=
  match c.queue.get? oldIndex with
  | some (some track) =>
    let trackId := track.id
    let c := { c with sent := c.sent ++ [OutboundMessage.PlayQueueMoveMessage trackId newIndex] }
    .ok { c with queue := arrayMove c.queue oldIndex newIndex }
  | _ => .error (.TypeError none)

/-- The method `handleSortEnd`. -/
def LivePlaylist.handleSortEnd (c : LivePlaylist) (oldIndex newIndex : Nat) :
    Except JSError LivePlaylist :=
  let c := { c with skipPlayUpdateTask := false }
  c.queueMove oldIndex newIndex

/-- The method `queueRemove`. -/
def LivePlaylist.queueRemove (c : LivePlaylist) (trackId : String) : LivePlaylist :=
  { c with sent := c.sent ++ [OutboundMessage.PlayQueueRemoveMessage trackId] }

/-- The method `pausePlayProgress`. -/
def LivePlaylist.pausePlayProgress (c : LivePlaylist) : LivePlaylist :=
  let c :=
    match c.playUpdateTask with
    | some id => c.clearInterval id
    | none => c
  { c with isPlaying := false }

/-- The closure `update` of `startPlayProgress`; `now1` and `now2` are its two
readings of `performance.now()`, for the delay and for the displayed time. -/
def LivePlaylist.update (c : LivePlaylist) (now1 now2 : ℚ) : LivePlaylist :=
  let timeOffset := jsRem c.playStartTime 1000
  let timeUntilNext := 1000 - jsRem now1 1000 + timeOffset
  let r := c.setTimeout timeUntilNext
  let c := { r.1 with playUpdateTask := some r.2 }
  if c.skipPlayUpdateTask then c
  else { c with playCurrentTime := now2 }

/-- The method `startPlayProgress`; `now0` is its own reading of `performance.now()`,
`now1` and `now2` are the readings of the call of `update` it ends with. -/
def LivePlaylist.startPlayProgress (c : LivePlaylist) (now0 now1 now2 : ℚ) : LivePlaylist :=
  let c := c.pausePlayProgress
  let c := { c with playStartTime := now0 }
  let c := { c with playCurrentTime := c.playStartTime }
  let c := c.update now1 now2
  { c with isPlaying := true }

/-- The difference `playCurrentTime - playStartTime` that `Track` adds, divided by
1000, to the offset of the first track. -/
def LivePlaylist.elapsed (c : LivePlaylist) : ℚ :=
  c.playCurrentTime - c.playStartTime

/-! ## Handler registry -/

/-- The handler closures that the components pass to `setMessageHandler`, named after
the component and the kind they are registered for. -/
inductive Handler where
  | appAuthFail
  | appAuthSucceed
  | appServerKick
  | playlistQueueSend
  | playlistStatusSend
  | searchUrlInvalid
  | searchQueueFull
  deriving DecidableEq, Repr

/-- Modelled from the spec: the registry of the `EventDispatcher` that the components
call (`setMessageHandler`, `clearMessageHandler`), which `message.js` does not define:
a mapping from kind to at most one handler. -/
abbrev HandlerRegistry := List (String × Handler)

/-- Modelled from the spec: `setMessageHandler(kind, handler)` of the registry, which
is not among the sources; it registers `handler` for `kind`, replacing any prior
handler for that kind. -/
def setMessageHandler (r : HandlerRegistry) (kind : String) (handler : Handler) :
    HandlerRegistry :=
  setProp r kind handler

/-- Modelled from the spec: `clearMessageHandler(kind)` of the registry, which is not
among the sources; it removes the handler for `kind`. -/
def clearMessageHandler (r : HandlerRegistry) (kind : String) : HandlerRegistry :=
  r.filter fun e => e.1 != kind

/-! ## LivePlaylist.js: life cycle and timer -/

/-- The method `componentDidMount` of `LivePlaylist`, on the component and the registry
of `this.props.eventDispatcher`. -/
def LivePlaylist.componentDidMount (c : LivePlaylist) (r : HandlerRegistry) :
    LivePlaylist × HandlerRegistry :=
  let r := setMessageHandler r "play.queue.send" .playlistQueueSend
  let r := setMessageHandler r "play.status.send" .playlistStatusSend
  let c := { c with sent := c.sent ++ [OutboundMessage.PlayQueueGetMessage] }
  let c := { c with sent := c.sent ++ [OutboundMessage.PlayStatusGetMessage] }
  (c, r)

/-- The method `componentWillUnmount` of `LivePlaylist`. -/
def LivePlaylist.componentWillUnmount (c : LivePlaylist) (r : HandlerRegistry) :
    LivePlaylist × HandlerRegistry :=
  let r := clearMessageHandler r "play.queue.send"
  let r := clearMessageHandler r "play.status.send"
  let c := { c with queue := [] }
  (c.pausePlayProgress, r)

/-- The window runs the pending timeout `id`: the timeout is no longer pending and its
callback `update` runs with the readings `now1`, `now2` of `performance.now()`.
Nothing happens when no timeout `id` is pending. -/
def LivePlaylist.timerFired (c : LivePlaylist) (id : Nat) (now1 now2 : ℚ) : LivePlaylist :=
  if c.timers.any (fun t => t.1 == id) then
    ({ c with timers := c.timers.filter fun t => t.1 != id }).update now1 now2
  else c

/-- What can happen to a mounted `LivePlaylist`: calls of its methods by the handlers
and the drag library, and the firing of a pending timeout. -/
inductive PlaylistEvent where
  | startPlayProgress (now0 now1 now2 : ℚ)
  | pausePlayProgress
  | timerFired (id : Nat) (now1 now2 : ℚ)
  | handleSortStart
  | handleSortEnd (oldIndex newIndex : Nat)
  | handleQueueChange (newQueue : List (Option Track)) (now : ℚ)
  | queueRemove (trackId : String)
  | componentWillUnmount

/-- True for the event `startPlayProgress`. -/
def PlaylistEvent.isStart : PlaylistEvent → Bool
  | .startPlayProgress _ _ _ => true
  | _ => false

/-- The component and the registry after one event. When `handleSortEnd` throws, the
assignment it made before the throw stays. -/
def LivePlaylist.step (st : LivePlaylist × HandlerRegistry) :
    PlaylistEvent → LivePlaylist × HandlerRegistry
  | .startPlayProgress now0 now1 now2 => (st.1.startPlayProgress now0 now1 now2, st.2)
  | .pausePlayProgress => (st.1.pausePlayProgress, st.2)
  | .timerFired id now1 now2 => (st.1.timerFired id now1 now2, st.2)
  | .handleSortStart => (st.1.handleSortStart, st.2)
  | .handleSortEnd oldIndex newIndex =>
    match st.1.handleSortEnd oldIndex newIndex with
    | .ok c => (c, st.2)
    | .error _ => ({ st.1 with skipPlayUpdateTask := false }, st.2)
  | .handleQueueChange newQueue now => (st.1.handleQueueChange newQueue now, st.2)
  | .queueRemove trackId => (st.1.queueRemove trackId, st.2)
  | .componentWillUnmount => st.1.componentWillUnmount st.2

/-- The component and the registry after a sequence of events, oldest first. -/
def LivePlaylist.run (st : LivePlaylist × HandlerRegistry) (events : List PlaylistEvent) :
    LivePlaylist × HandlerRegistry :=
  events.foldl LivePlaylist.step st

/-- The value `playTimeRemaining` computed by the `Track` component, in seconds. -/
def Track.playTimeRemaining (track : Track) (isFirstTrack : Bool)
    (playStartTime playCurrentTime : ℚ) : ℚ :=
  let playTimeRemaining := max (track.duration - track.offset) 0
  if isFirstTrack then
    max (track.duration - track.offset - (playCurrentTime - playStartTime) / 1000) 0
  else playTimeRemaining

/-- The value `playTimeProgress` computed by the `Track` component: the fraction of the
width of the progress bar. -/
def Track.playTimeProgress (track : Track) (isFirstTrack : Bool)
    (playStartTime playCurrentTime : ℚ) : ℚ :=
  1 - track.playTimeRemaining isFirstTrack playStartTime playCurrentTime /
    max track.duration 1

/-! ## app.js -/

/-- The `readyState` of a `WebSocket`. -/
inductive ReadyState where
  | CONNECTING
  | OPEN
  | CLOSING
  | CLOSED
  deriving DecidableEq, Repr

/-- The `App` component with the part of its environment that it acts on. -/
structure App where
  authenticated : Bool
  connection : ReadyState
  needLogin : Bool
  discordServer : Option JSValue
  /-- The field `this.heartbeatInterval`: `null`, or the identifier of the last
  interval set. -/
  heartbeatInterval : Option Nat
  /-- The registry of `this.eventDispatcher`. -/
  eventDispatcher : HandlerRegistry
  /-- The scheduled intervals of the window: identifier and period in milliseconds.
  Each one sends a heartbeat whenever it fires. -/
  intervals : List (Nat × ℚ)
  /-- The identifier that the next `setInterval` returns. -/
  nextTimer : Nat
  /-- The number of heartbeat frames handed to `this.socket.send`. -/
  heartbeatsSent : Nat
  /-- The credential last passed to `Session.store`: handle and secret. -/
  session : Option (JSValue × JSValue)

/-- The constructor of `App`, in a window without scheduled intervals. -/
def App.new : App :=
  { authenticated := false, connection := .CLOSED, needLogin := false,
    discordServer := none, heartbeatInterval := none, eventDispatcher := [],
    intervals := [], nextTimer := 1, heartbeatsSent := 0, session := none }

/-- The builtin `setInterval(callback, period)`: schedules an interval and returns its
identifier. -/
def App.setInterval (c : App) (period : ℚ) : App × Nat :=
  ({ c with intervals := c.intervals ++ [(c.nextTimer, period)],
            nextTimer := c.nextTimer + 1 }, c.nextTimer)

/-- The builtin `clearInterval(id)`; `clearInterval(null)` does nothing. -/
def App.clearInterval (c : App) (id : Option Nat) : App :=
  match id with
  | none => c
  | some i => { c with intervals := c.intervals.filter fun t => t.1 != i }

/-- The handler that `App` passes to `setMessageHandler` for `auth.fail`. -/
def App.handleAuthFail (c : App) (_m : Message) : App :=
  { c with needLogin := true }

/-- The handler that `App` passes to `setMessageHandler` for `auth.succeed`: it stores
the session, sets `authenticated` and assigns a new 60000 ms interval to
`this.heartbeatInterval`. -/
def App.handleAuthSucceed (c : App) (m : Message) : App :=
  let handle := (lookupProp m.props "session_handle").getD .undefined
  let secret := (lookupProp m.props "session_secret").getD .undefined
  let c := { c with session := some (handle, secret) }
  let c := { c with authenticated := true }
  let r := c.setInterval 60000
  { r.1 with heartbeatInterval := some r.2 }

/-- The handler that `App` passes to `setMessageHandler` for `server.kick`. -/
def App.handleServerKick (c : App) (_m : Message) : App :=
  { c with discordServer := none }

/-- The method `componentDidMount` of `App`: a new dispatcher with the three handlers,
then the socket, whose `readyState` is `CONNECTING` once it is constructed;
`socketThrows` tells that `new WebSocket` threw. -/
def App.componentDidMount (c : App) (socketThrows : Bool) : App :=
  let r : HandlerRegistry := []
  let r := setMessageHandler r "auth.fail" .appAuthFail
  let r := setMessageHandler r "auth.succeed" .appAuthSucceed
  let r := setMessageHandler r "server.kick" .appServerKick
  let c := { c with eventDispatcher := r }
  if socketThrows then { c with connection := .CLOSED }
  else { c with connection := .CONNECTING }

/-- The method `onSocketOpen`. -/
def App.onSocketOpen (c : App) : App :=
  { c with connection := .OPEN }

/-- The method `onSocketClose`. -/
def App.onSocketClose (c : App) : App :=
  let c := { c with connection := .CLOSED }
  c.clearInterval c.heartbeatInterval

/-- The method `componentWillUnmount` of `App`; the close of the socket is reported
later by the event `socketClose`. -/
def App.componentWillUnmount (c : App) : App :=
  let r := clearMessageHandler c.eventDispatcher "auth.fail"
  let r := clearMessageHandler r "auth.succeed"
  let r := clearMessageHandler r "server.kick"
  { c with eventDispatcher := r }

/-- The callback `socket.onmessage` of `app.js` on the frame text `e.data`:
`this.eventDispatcher.dispatch(Message.parse(e.data))`, with `parse` and
`EventDispatcher.dispatch` of `./message.js`. The dispatcher is the object that
`new Message.EventDispatcher()` built: `app.js` never assigns its properties
`onAuthFail` and `onAuthSucceed`, and `dispatch` does not read what was passed to
`setMessageHandler`. An exception thrown by `parse` or `dispatch` ends the callback and
leaves the component as it is. -/
def App.onmessage (c : App) (data : String) : App :=
  match parse data with
  | .error _ => c
  | .ok message =>
    match (EventDispatcher.new : EventDispatcher App).dispatch (.message message) c with
    | .ok c2 => c2
    | .error _ => c

/-- The window runs the callback of the scheduled interval `id`, which hands a heartbeat
to `this.socket.send`; the interval stays scheduled. Nothing happens when no interval
`id` is scheduled. -/
def App.intervalFired (c : App) (id : Nat) : App :=
  if c.intervals.any (fun t => t.1 == id) then
    { c with heartbeatsSent := c.heartbeatsSent + 1 }
  else c

/-- What can happen to a mounted `App`: an inbound text frame, the socket opening or
closing, a scheduled interval firing. -/
inductive AppEvent where
  | message (data : String)
  | socketOpen
  | socketClose
  | intervalFired (id : Nat)

/-- The component after one event. -/
def App.step (c : App) : AppEvent → App
  | .message data => c.onmessage data
  | .socketOpen => c.onSocketOpen
  | .socketClose => c.onSocketClose
  | .intervalFired id => c.intervalFired id

/-- The component after a sequence of events, oldest first. -/
def App.run (c : App) (events : List AppEvent) : App :=
  events.foldl App.step c

/-- An `auth.succeed` frame as the server sends it. -/
def authSucceedFrame : String :=
  "\x7b\"header\":\"auth.succeed\",\"username\":\"u\",\"session_handle\":\"h\",\"session_secret\":\"s\"\x7d"

/-! ## SearchBox.js -/

/-- The `SearchBox` component of `components/App/Dashboard/SearchBox`. -/
structure SearchBox where
  searchBox : String
  searchTimeout : Option Nat
  _isMounted : Bool

/-- The constructor of `SearchBox`. -/
def SearchBox.new : SearchBox :=
  { searchBox := "", searchTimeout := none, _isMounted := false }

/-- The method `cancelRunningQueries`. -/
def SearchBox.cancelRunningQueries (c : SearchBox) : SearchBox :=
  match c.searchTimeout with
  | some _ => { c with searchTimeout := none }
  | none => c

/-- The method `componentDidMount` of `SearchBox`, on the component and the registry of
`this.props.eventDispatcher`. -/
def SearchBox.componentDidMount (c : SearchBox) (r : HandlerRegistry) :
    SearchBox × HandlerRegistry :=
  let c := { c with _isMounted := true }
  let r := setMessageHandler r "error.url.invalid" .searchUrlInvalid
  let r := setMessageHandler r "error.queue.full" .searchQueueFull
  (c, r)

/-- The method `componentWillUnmount` of `SearchBox`. -/
def SearchBox.componentWillUnmount (c : SearchBox) (r : HandlerRegistry) :
    SearchBox × HandlerRegistry :=
  let c := { c with _isMounted := false }
  let c := c.cancelRunningQueries
  let r := clearMessageHandler r "error.url.invalid"
  (c, r)

/-! ## file-upload.js -/

/-- A frame that the upload handler hands to `socket.send` for one file. -/
inductive UploadFrame where
  /-- The text frame `new Message.FileUploadStartMessage(file.size).str()`. -/
  | FileUploadStartMessage (size : Nat)
  /-- The binary frame `file.slice(start, end)`. -/
  | slice (start stop : Nat)
  deriving DecidableEq, Repr

/-- The constant `chunk_size`. -/
def chunk_size : Nat := 4096

/-- The loop `while (end < file.size)` of `upload`, entered with the value `stop` of
the variable `end`: the pairs `(start, end)` of the slices it sends, in order. -/
def uploadLoop (size stop : Nat) : List (Nat × Nat) :=
  if stop < size then
    let start := stop
    let stop2 := min (stop + chunk_size) size
    (start, stop2) :: uploadLoop size stop2
  else []
termination_by size - stop
decreasing_by
  simp only [chunk_size]
  omega

/-- The frames that the `auth.succeed` handler of `upload` sends for one file of the
given size. -/
def uploadFile (size : Nat) : List UploadFrame :=
  UploadFrame.FileUploadStartMessage size ::
    (uploadLoop size 0).map fun p => UploadFrame.slice p.1 p.2

/-! ## TimestampFormat.js -/

/-- The builtin `Math.round` on exact numbers: the nearest integer, a half rounding
up. -/
def mathRound (x : ℚ) : Int := ⌊x + 1 / 2⌋

/-- The builtin `s.padStart(targetLength, padChar)` for a one-character pad. -/
def padStart (s : String) (targetLength : Nat) (padChar : Char) : String :=
  String.mk (List.replicate (targetLength - s.length) padChar ++ s.data)

/-- The default export of `TimestampFormat.js`. After rounding and clamping the number
of seconds is a natural number, written in decimal by the template literals. -/
def TimestampFormat (seconds : ℚ) : String :=
  let display := ""
  let seconds : Int := mathRound seconds
  let seconds : Nat := (max seconds 0).toNat
  let display :=
    if seconds ≥ 60 * 60 then
      let display := display ++ (toString (seconds / (60 * 60)) ++ ":")
      display ++ padStart (toString (seconds / 60 % 60) ++ ":") 3 '0'
    else
      display ++ (toString (seconds / 60 % 60) ++ ":")
  display ++ padStart (toString (seconds % 60)) 2 '0'

/-- The two decimal digits of a number below 100. -/
def twoDigits (k : Nat) : String :=
  String.mk [Nat.digitChar (k / 10), Nat.digitChar (k % 10)]

/-- The state of the pending timeouts that the playlist keeps: none is pending, or
exactly one, the one that `playUpdateTask` names. -/
def LivePlaylist.oneWakeup (c : LivePlaylist) : Prop :=
  c.timers = [] ∨ ∃ id d, c.timers = [(id, d)] ∧ c.playUpdateTask = some id

/-- The events of a sequence that are not `startPlayProgress`. -/
def withoutStart (events : List PlaylistEvent) : List PlaylistEvent :=
  events.filter fun e => !e.isStart

/-! # Theorems -/

/-! ## JSON.parse reads back what JSON.stringify writes -/

namespace JSON

theorem hex4_digitChar : ∀ n, n < 32 →
    hex4 '0' '0' (Nat.digitChar (n / 16)) (Nat.digitChar (n % 16)) = some n := by
  decide

theorem readChar_quoteChar (c : Char) (tail : List Char) :
    readChar (quoteChar c ++ tail) = some (c, tail) := by
  unfold quoteChar
  split_ifs with h1 h2 h3 h4 h5 h6 h7 h8
  · subst h1; rfl
  · subst h2; rfl
  · subst h3; rfl
  · subst h4; rfl
  · subst h5; rfl
  · subst h6; rfl
  · subst h7; rfl
  · have hx := hex4_digitChar c.toNat h8
    have hlt : c.toNat < 0xD800 := by omega
    simp [readChar, readEscape, readUnicode, hx, hlt, Char.ofNat_toNat]
  · simp [readChar, h2, h8]

/-- An escaped character never starts with the closing quote. -/
theorem quoteChar_head (c : Char) (tail : List Char) :
    ∃ h t, quoteChar c ++ tail = h :: t ∧ h ≠ '"' := by
  unfold quoteChar
  split_ifs with h1 h2 h3 h4 h5 h6 h7 h8
  all_goals first
    | exact ⟨'\\', _, rfl, by decide⟩
    | exact ⟨c, tail, rfl, h1⟩

theorem parseString_quoteBody (s : List Char) :
    ∀ (fuel : Nat) (rest : List Char), s.length < fuel →
      parseString fuel (quoteBody s ++ '"' :: rest) = some (s, rest) := by
  induction s with
  | nil =>
    intro fuel rest hf
    obtain ⟨f, rfl⟩ : ∃ f, fuel = f + 1 := ⟨fuel - 1, by simp at hf; omega⟩
    simp [quoteBody, parseString]
  | cons c s ih =>
    intro fuel rest hf
    obtain ⟨f, rfl⟩ : ∃ f, fuel = f + 1 := ⟨fuel - 1, by omega⟩
    have hf2 : s.length < f := by simp at hf; omega
    obtain ⟨h, t, heq, hne⟩ := quoteChar_head c (quoteBody s ++ '"' :: rest)
    have hr := readChar_quoteChar c (quoteBody s ++ '"' :: rest)
    simp only [quoteBody, List.append_assoc]
    rw [heq] at hr ⊢
    simp [parseString, hne, hr, ih f rest hf2]

theorem length_quoteChar (c : Char) : 1 ≤ (quoteChar c).length := by
  unfold quoteChar
  split_ifs <;> simp

theorem length_quoteBody (s : List Char) : s.length ≤ (quoteBody s).length := by
  induction s with
  | nil => simp
  | cons c s ih =>
    have := length_quoteChar c
    simp [quoteBody]
    omega

theorem parseStringLit_quoteBody (s tail : List Char) :
    parseStringLit (quoteBody s ++ '"' :: tail) = some (s, tail) := by
  have hlen := length_quoteBody s
  exact parseString_quoteBody s _ tail (by simp; omega)

/-- A quoted string is read back as the string. -/
theorem parseValue_quote (fuel : Nat) (s : String) (tail : List Char) :
    parseValue (fuel + 1) (quote s ++ tail) = some (.str s, tail) := by
  simp [quote, parseValue, skipWs, isWhitespace, parseStringLit_quoteBody]

theorem parseMembers_last (fuel : Nat) (kv : String × String) (rest : List Char)
    (acc : List (String × JSValue)) :
    parseMembers (fuel + 2) (memberText kv ++ '}' :: rest) acc =
      some (setProp acc kv.1 (.str kv.2), rest) := by
  have hv := parseValue_quote fuel kv.2 ('}' :: rest)
  simp only [quote, List.cons_append, List.append_assoc, List.nil_append] at hv
  simp [memberText, parseMembers, quote, skipWs, isWhitespace, parseStringLit_quoteBody, hv]

theorem parseMembers_more (fuel : Nat) (kv : String × String) (more : List Char)
    (acc : List (String × JSValue)) :
    parseMembers (fuel + 2) (memberText kv ++ ',' :: more) acc =
      parseMembers (fuel + 1) more (setProp acc kv.1 (.str kv.2)) := by
  have hv := parseValue_quote fuel kv.2 (',' :: more)
  simp only [quote, List.cons_append, List.append_assoc, List.nil_append] at hv
  rw [parseMembers]
  simp [memberText, quote, skipWs, isWhitespace, parseStringLit_quoteBody, hv]

theorem parseMembers_members (kvs : List (String × String)) :
    ∀ (kv : String × String) (fuel : Nat) (acc : List (String × JSValue)) (rest : List Char),
      kvs.length + 2 ≤ fuel →
      parseMembers fuel (joinComma ((kv :: kvs).map memberText) ++ '}' :: rest) acc =
        some ((kv :: kvs).foldl (fun a p => setProp a p.1 (.str p.2)) acc, rest) := by
  induction kvs with
  | nil =>
    intro kv fuel acc rest hf
    obtain ⟨f, rfl⟩ : ∃ f, fuel = f + 2 := ⟨fuel - 2, by simp at hf; omega⟩
    simpa [joinComma] using parseMembers_last f kv rest acc
  | cons kv2 kvs ih =>
    intro kv fuel acc rest hf
    obtain ⟨f, rfl⟩ : ∃ f, fuel = f + 2 := ⟨fuel - 2, by omega⟩
    have hf2 : kvs.length + 2 ≤ f + 1 := by simp at hf; omega
    have h := parseMembers_more f kv
      (joinComma ((kv2 :: kvs).map memberText) ++ '}' :: rest) acc
    simp only [List.map_cons, joinComma, List.append_assoc, List.cons_append,
      List.foldl_cons] at h ⊢
    rw [h]
    exact ih kv2 (f + 1) _ rest hf2

theorem length_memberText (kv : String × String) : 1 ≤ (memberText kv).length := by
  simp [memberText, quote]

theorem length_joinComma (kvs : List (String × String)) :
    kvs.length ≤ (joinComma (kvs.map memberText)).length := by
  induction kvs with
  | nil => simp
  | cons kv kvs ih =>
    cases kvs with
    | nil => simpa [joinComma] using length_memberText kv
    | cons kv2 kvs =>
      have := length_memberText kv
      simp only [List.map_cons, joinComma, List.length_append, List.length_cons] at ih ⊢
      omega

theorem serializeMembers_strProps (kvs : List (String × String)) :
    serializeMembers (strProps kvs) = kvs.map memberText := by
  induction kvs with
  | nil => simp [strProps, serializeMembers]
  | cons kv kvs ih =>
    simp only [strProps, List.map_cons] at ih ⊢
    simp [serializeMembers, serialize, ih, memberText]

/-- The builtin `JSON.parse` reads the text that `JSON.stringify` writes for an object with string
values back as the object built by assigning the properties in order. -/
theorem parse_stringify (kv : String × String) (kvs : List (String × String)) :
    parse (stringify (strProps (kv :: kvs))) =
      .ok (.obj ((kv :: kvs).foldl (fun a p => setProp a p.1 (.str p.2)) [])) := by
  have hlen := length_joinComma (kv :: kvs)
  have hm := parseMembers_members kvs kv
    ((joinComma ((kv :: kvs).map memberText) ++ ['}']).length + 1) [] [] (by
      simp only [List.length_append, List.length_cons, List.length_nil] at hlen ⊢
      omega)
  obtain ⟨t, ht⟩ : ∃ t, joinComma ((kv :: kvs).map memberText) = '"' :: t := by
    cases kvs with
    | nil => exact ⟨_, by simp [joinComma, memberText, quote]; rfl⟩
    | cons kv2 kvs => exact ⟨_, by simp [joinComma, memberText, quote]; rfl⟩
  simp only [parse, stringify, serializeMembers_strProps, List.length_cons]
  rw [ht] at hm ⊢
  simp only [List.cons_append, List.length_cons, List.length_append, List.length_nil,
    List.foldl_cons, Nat.zero_add] at hm
  simp [parseValue, skipWs, isWhitespace, hm]

end JSON

/-! ## message.js: str and parse -/

theorem toJSString_str (s : String) : toJSString (.str s) = s := rfl

/-- The object serialised by `str` holds the header and then the constructor's
properties, converted to strings. -/
theorem strObject_new (C : MessageClass) (args : List JSValue) :
    (C.new args).strObject =
      JSON.strProps (("header", C.header) ::
        (assignParams C.params args).map fun p => (p.1, toJSString p.2)) := by
  cases C <;>
    simp [MessageClass.new, MessageClass.params, MessageClass.header, assignParams,
      Message.strObject, setProp, JSON.strProps]

/-- Parsing the text of a message of a class in the table gives the message with each
field replaced by its string conversion. -/
theorem parse_str_strings (C : MessageClass) (args : List JSValue)
    (h : (lookupProp VALID_MESSAGES C.header).isSome) :
    parse (C.new args).str =
      .ok ⟨C, (C.new args).props.map fun p => (p.1, .str (toJSString p.2))⟩ := by
  rw [parse, Message.str, strObject_new, JSON.parse_stringify]
  cases C <;>
    simp [MessageClass.new, MessageClass.params, MessageClass.header, assignParams,
      parseObject, getProperty, hasProperty, collectArgs, lookupProp, setProp, VALID_MESSAGES,
      toJSString_str] at h ⊢

/-- Arguments that are all strings, one for each parameter, are stored as they are. -/
theorem assignParams_strings (ps : List String) :
    ∀ args : List JSValue, (∀ v ∈ args, ∃ s, v = JSValue.str s) → ps.length ≤ args.length →
      ∀ p ∈ assignParams ps args, ∃ s, p.2 = JSValue.str s := by
  induction ps with
  | nil => intro args _ _ p hp; simp [assignParams] at hp
  | cons q ps ih =>
    intro args hall hlen p hp
    cases args with
    | nil => simp at hlen
    | cons a args =>
      simp only [assignParams, List.headD_cons, List.tail_cons, List.mem_cons] at hp
      rcases hp with rfl | hp
      · exact hall a (by simp)
      · exact ih args (fun v hv => hall v (by simp [hv])) (by simpa using hlen) p hp

theorem map_toJSString_strings (props : List (String × JSValue))
    (h : ∀ p ∈ props, ∃ s, p.2 = JSValue.str s) :
    props.map (fun p => (p.1, JSValue.str (toJSString p.2))) = props := by
  induction props with
  | nil => rfl
  | cons p props ih =>
    obtain ⟨s, hs⟩ := h p (by simp)
    have ih2 := ih (fun q hq => h q (by simp [hq]))
    obtain ⟨k, v⟩ := p
    simp only at hs
    subst hs
    simp [toJSString_str, ih2]

/-- C4. For every message built by a constructor of `message.js`, `str()` is the JSON
text of an object whose first member is `"header"` with the header string of the class,
followed by one member for each declared field, in declaration order, holding the
string conversion of the field; `AuthSessionMessage("abc","xyz").str()` is
`{"header":"auth.session","handle":"abc","secret":"xyz"}`. -/
theorem str_header_then_fields (C : MessageClass) (args : List JSValue) :
    (C.new args).str =
        String.mk ('{' :: (JSON.joinComma (JSON.memberText ("header", C.header) ::
          (C.new args).props.map fun p => JSON.memberText (p.1, toJSString p.2))
          ++ ['}']))
      ∧ (C.new args).props.map Prod.fst = C.params
      ∧ (MessageClass.AuthSessionMessage.new [.str "abc", .str "xyz"]).str =
        "\x7b\"header\":\"auth.session\",\"handle\":\"abc\",\"secret\":\"xyz\"\x7d" := by
  refine ⟨?_, ?_, by decide⟩
  · rw [Message.str, strObject_new, JSON.stringify, JSON.serializeMembers_strProps]
    simp only [List.map_cons, List.map_map, MessageClass.new]
    rfl
  · cases C <;> simp [MessageClass.new, MessageClass.params, assignParams]

/-- C1, counterexample. `new AuthCodeMessage(5)` does not survive the round trip: the
parsed message holds the string `"5"` in `code`, not the number 5. -/
theorem roundtrip_number_field_changes :
    parse (MessageClass.AuthCodeMessage.new [.num 5]).str =
        .ok ⟨.AuthCodeMessage, [("code", .str "5")]⟩
      ∧ (MessageClass.AuthCodeMessage.new [.num 5]).props = [("code", .num 5)]
      ∧ parse (MessageClass.AuthCodeMessage.new [.num 5]).str ≠
        .ok (MessageClass.AuthCodeMessage.new [.num 5]) := by
  refine ⟨rfl, rfl, ?_⟩
  have h : parse (MessageClass.AuthCodeMessage.new [.num 5]).str =
      .ok ⟨.AuthCodeMessage, [("code", .str "5")]⟩ := rfl
  rw [h]
  simp [MessageClass.new, MessageClass.params, assignParams]

/-- C1, amended. For every class in `VALID_MESSAGES` and all constructor arguments,
`parse(m.str())` is a message of the same class with the same field names, each field
holding the string conversion `String(v)` of the field of `m`; when every argument is a
string, one for each field, `parse(m.str())` is `m`. -/
theorem parse_str_roundtrip (C : MessageClass) (args : List JSValue)
    (h : (lookupProp VALID_MESSAGES C.header).isSome) :
    parse (C.new args).str =
        .ok ⟨C, (C.new args).props.map fun p => (p.1, .str (toJSString p.2))⟩
      ∧ ((∀ v ∈ args, ∃ s, v = JSValue.str s) → C.params.length ≤ args.length →
          parse (C.new args).str = .ok (C.new args)) := by
  refine ⟨parse_str_strings C args h, fun hall hlen => ?_⟩
  rw [parse_str_strings C args h]
  have hs := assignParams_strings C.params args hall hlen
  have hm := map_toJSString_strings (C.new args).props hs
  rw [hm]
  rfl

/-- Witness of `parse_str_roundtrip`: `AuthSessionMessage("abc", "xyz")`. -/
theorem parse_str_roundtrip_witness :
    parse (MessageClass.AuthSessionMessage.new [.str "abc", .str "xyz"]).str =
        .ok ⟨.AuthSessionMessage,
          (MessageClass.AuthSessionMessage.new [.str "abc", .str "xyz"]).props.map
            fun p => (p.1, .str (toJSString p.2))⟩
      ∧ ((∀ v ∈ [JSValue.str "abc", JSValue.str "xyz"], ∃ s, v = JSValue.str s) →
          MessageClass.AuthSessionMessage.params.length ≤ [JSValue.str "abc", JSValue.str "xyz"].length →
          parse (MessageClass.AuthSessionMessage.new [.str "abc", .str "xyz"]).str =
            .ok (MessageClass.AuthSessionMessage.new [.str "abc", .str "xyz"])) :=
  parse_str_roundtrip .AuthSessionMessage [.str "abc", .str "xyz"] (by decide)

/-! ## message.js: parse on arbitrary objects -/

/-- Every entry of `VALID_MESSAGES` lists the header of its class and the parameters of
its constructor. -/
theorem table_entry (k : String) (C : MessageClass) (fields : List String)
    (h : lookupProp VALID_MESSAGES k = some (C, fields)) :
    fields = C.params ∧ k = C.header := by
  simp only [VALID_MESSAGES, lookupProp] at h
  split_ifs at h with h1 h2 h3 h4 h5 <;> simp at h <;> obtain ⟨rfl, rfl⟩ := h <;>
    simp_all [MessageClass.params, MessageClass.header]

/-- The loop over the required fields, on an object. -/
theorem collectArgs_obj (props : List (String × JSValue)) (fields : List String) :
    ∀ acc : List JSValue,
      collectArgs (.obj props) fields acc =
        if fields.all (fun f => (lookupProp props f).isSome) then
          .ok (acc ++ fields.map fun f => (lookupProp props f).getD .undefined)
        else .error (.TypeError (some mismatchedParameters)) := by
  induction fields with
  | nil => intro acc; simp [collectArgs]
  | cons f fields ih =>
    intro acc
    cases hf : lookupProp props f with
    | none => simp [collectArgs, hasProperty, hf]
    | some v => simp [collectArgs, hasProperty, getProperty, hf, ih]

theorem assignParams_map (fields : List String) (g : String → JSValue) :
    assignParams fields (fields.map g) = fields.map fun f => (f, g f) := by
  induction fields with
  | nil => rfl
  | cons f fields ih => simp [assignParams, ih]

/-- The body of `parse` on an object: the table entry of the header key decides. -/
theorem parseObject_obj (props : List (String × JSValue)) :
    parseObject (.obj props) =
      match lookupProp VALID_MESSAGES (headerKey props) with
      | none => .error (.TypeError none)
      | some (C, fields) =>
        if fields.all (fun f => (lookupProp props f).isSome) then
          .ok ⟨C, fields.map fun f => (f, (lookupProp props f).getD .undefined)⟩
        else .error (.TypeError (some mismatchedParameters)) := by
  simp only [parseObject, getProperty, headerKey]
  cases hl : lookupProp VALID_MESSAGES (toJSString ((lookupProp props "header").getD .undefined)) with
  | none => rfl
  | some e =>
    obtain ⟨C, fields⟩ := e
    obtain ⟨hfields, -⟩ := table_entry _ _ _ hl
    simp only [collectArgs_obj, List.nil_append]
    split_ifs
    · simp only [MessageClass.new, ← hfields, assignParams_map]
    · rfl

/-- C2. For every text that `JSON.parse` reads as an object whose header key has an
entry in `VALID_MESSAGES`, `parse` throws the mismatch `TypeError` exactly when some
required field of the entry is not a key of the object (whatever value a present key
holds), and returns a message when every required field is a key. -/
theorem parse_malformed_iff (text : String) (props : List (String × JSValue))
    (C : MessageClass) (fields : List String)
    (hjson : JSON.parse text = .ok (.obj props))
    (hkind : lookupProp VALID_MESSAGES (headerKey props) = some (C, fields)) :
    (parse text = .error (.TypeError (some mismatchedParameters)) ↔
        ∃ f ∈ fields, lookupProp props f = none)
      ∧ ((∀ f ∈ fields, ∃ v, lookupProp props f = some v) → ∃ m, parse text = .ok m) := by
  have hp : parse text = parseObject (.obj props) := by simp [parse, hjson]
  rw [hp, parseObject_obj, hkind]
  by_cases hall : fields.all (fun f => (lookupProp props f).isSome) = true
  · simp only [hall, if_true]
    have hall2 : ∀ f ∈ fields, (lookupProp props f).isSome = true := by
      simpa [List.all_eq_true] using hall
    refine ⟨⟨fun h => by simp at h, fun ⟨f, hf, hnone⟩ => ?_⟩, fun _ => ⟨_, rfl⟩⟩
    have := hall2 f hf
    simp [hnone] at this
  · simp only [hall, if_false]
    have hex : ∃ f ∈ fields, lookupProp props f = none := by
      simpa [List.all_eq_true, Option.isSome_iff_exists, ← Option.eq_none_iff_forall_not_mem,
        Option.eq_none_iff_forall_not_mem] using hall
    refine ⟨⟨fun _ => hex, fun _ => rfl⟩, fun h => ?_⟩
    obtain ⟨f, hf, hnone⟩ := hex
    obtain ⟨v, hv⟩ := h f hf
    simp [hnone] at hv

/-- Witness of `parse_malformed_iff`: an `auth.code` object without `code`. -/
theorem parse_malformed_iff_witness :
    (parse "\x7b\"header\":\"auth.code\"\x7d" = .error (.TypeError (some mismatchedParameters)) ↔
        ∃ f ∈ ["code"], lookupProp [("header", JSValue.str "auth.code")] f = none)
      ∧ ((∀ f ∈ ["code"], ∃ v, lookupProp [("header", JSValue.str "auth.code")] f = some v) →
          ∃ m, parse "\x7b\"header\":\"auth.code\"\x7d" = .ok m) :=
  parse_malformed_iff "\x7b\"header\":\"auth.code\"\x7d" [("header", .str "auth.code")]
    .AuthCodeMessage ["code"] rfl rfl

/-- C3, counterexample. An object with the unknown header `nope` and an `auth.code`
object without `code` both make `parse` throw a `TypeError`: the error of the unknown
header has the class of the malformed-message error. -/
theorem unknown_header_same_error_class :
    parse "\x7b\"header\":\"nope\"\x7d" = .error (.TypeError none)
      ∧ parse "\x7b\"header\":\"auth.code\"\x7d" = .error (.TypeError (some mismatchedParameters))
      ∧ (JSError.TypeError none).errorClass =
        (JSError.TypeError (some mismatchedParameters)).errorClass := by
  refine ⟨rfl, rfl, rfl⟩

/-- C3, amended. For every text that `JSON.parse` reads as an object whose header key
has no entry in `VALID_MESSAGES` (an object without `header` has the key `undefined`),
`parse` fails with a `TypeError` raised by the runtime. It has the error class of the
malformed-message error and differs from it in carrying no message of the source. -/
theorem parse_unknown_header (text : String) (props : List (String × JSValue))
    (hjson : JSON.parse text = .ok (.obj props))
    (hkind : lookupProp VALID_MESSAGES (headerKey props) = none) :
    parse text = .error (.TypeError none)
      ∧ (JSError.TypeError none).errorClass = .TypeError
      ∧ (JSError.TypeError (some mismatchedParameters)).errorClass = .TypeError
      ∧ JSError.TypeError none ≠ JSError.TypeError (some mismatchedParameters) := by
  have hp : parse text = parseObject (.obj props) := by simp [parse, hjson]
  refine ⟨?_, rfl, rfl, by simp⟩
  rw [hp, parseObject_obj, hkind]

/-- Witness of `parse_unknown_header`: the object `{}`, which has no header. -/
theorem parse_unknown_header_witness :
    parse "\x7b\x7d" = .error (.TypeError none)
      ∧ (JSError.TypeError none).errorClass = .TypeError
      ∧ (JSError.TypeError (some mismatchedParameters)).errorClass = .TypeError
      ∧ JSError.TypeError none ≠ JSError.TypeError (some mismatchedParameters) :=
  parse_unknown_header "\x7b\x7d" [] rfl rfl

/-- C5. For every text that `JSON.parse` reads as an object whose header key has an
entry in `VALID_MESSAGES` and which has every required field as a key, `parse` returns
a message of the class of the entry whose properties are exactly the required fields,
in order, each holding the value of the parsed object unchanged; a second such text
with the same header key and the same values under the required fields parses to the
same message, whatever other keys the two objects hold. -/
theorem parse_exposes_declared_fields (text : String) (props : List (String × JSValue))
    (C : MessageClass) (fields : List String)
    (hjson : JSON.parse text = .ok (.obj props))
    (hkind : lookupProp VALID_MESSAGES (headerKey props) = some (C, fields))
    (hall : ∀ f ∈ fields, ∃ v, lookupProp props f = some v) :
    parse text = .ok ⟨C, fields.map fun f => (f, (lookupProp props f).getD .undefined)⟩
      ∧ fields = C.params
      ∧ ∀ (text2 : String) (props2 : List (String × JSValue)),
          JSON.parse text2 = .ok (.obj props2) → headerKey props2 = headerKey props →
          (∀ f ∈ fields, lookupProp props2 f = lookupProp props f) →
          parse text2 = parse text := by
  have key : ∀ (t : String) (ps : List (String × JSValue)),
      JSON.parse t = .ok (.obj ps) → headerKey ps = headerKey props →
      (∀ f ∈ fields, lookupProp ps f = lookupProp props f) →
      parse t = .ok ⟨C, fields.map fun f => (f, (lookupProp props f).getD .undefined)⟩ := by
    intro t ps hj hh hf
    have hp : parse t = parseObject (.obj ps) := by simp [parse, hj]
    have hall2 : fields.all (fun f => (lookupProp ps f).isSome) = true := by
      rw [List.all_eq_true]
      intro f hfm
      obtain ⟨v, hv⟩ := hall f hfm
      simp [hf f hfm, hv]
    rw [hp, parseObject_obj, hh, hkind]
    simp only [hall2, if_true]
    congr 2
    exact List.map_congr_left fun f hfm => by rw [hf f hfm]
  refine ⟨key text props hjson rfl (fun _ _ => rfl), (table_entry _ _ _ hkind).1, ?_⟩
  intro text2 props2 hj2 hh2 hf2
  rw [key text2 props2 hj2 hh2 hf2, key text props hjson rfl (fun _ _ => rfl)]

/-- Witness of `parse_exposes_declared_fields`: an `auth.session` object with a number
under `secret` and an undeclared key `extra`. -/
theorem parse_exposes_declared_fields_witness :
    parse "\x7b\"header\":\"auth.session\",\"extra\":true,\"secret\":7,\"handle\":\"abc\"\x7d" =
        .ok ⟨.AuthSessionMessage, ["handle", "secret"].map fun f =>
          (f, (lookupProp [("header", JSValue.str "auth.session"), ("extra", .bool true),
            ("secret", .num 7), ("handle", .str "abc")] f).getD .undefined)⟩
      ∧ ["handle", "secret"] = MessageClass.AuthSessionMessage.params
      ∧ ∀ (text2 : String) (props2 : List (String × JSValue)),
          JSON.parse text2 = .ok (.obj props2) →
          headerKey props2 = headerKey [("header", JSValue.str "auth.session"),
            ("extra", .bool true), ("secret", .num 7), ("handle", .str "abc")] →
          (∀ f ∈ ["handle", "secret"], lookupProp props2 f =
            lookupProp [("header", JSValue.str "auth.session"), ("extra", .bool true),
              ("secret", .num 7), ("handle", .str "abc")] f) →
          parse text2 =
            parse "\x7b\"header\":\"auth.session\",\"extra\":true,\"secret\":7,\"handle\":\"abc\"\x7d" :=
  parse_exposes_declared_fields
    "\x7b\"header\":\"auth.session\",\"extra\":true,\"secret\":7,\"handle\":\"abc\"\x7d"
    [("header", .str "auth.session"), ("extra", .bool true), ("secret", .num 7),
      ("handle", .str "abc")]
    .AuthSessionMessage ["handle", "secret"] rfl rfl (by simp [lookupProp])

/-- C6, the code at the failing inputs. `VALID_MESSAGES` has the five headers
`auth.code`, `auth.fail`, `auth.session`, `auth.succeed` and `play.url` and no other;
`parse` throws on a well-formed message of each of the seven other kinds. -/
theorem table_has_five_kinds :
    VALID_MESSAGES.map Prod.fst =
        ["auth.code", "auth.fail", "auth.session", "auth.succeed", "play.url"]
      ∧ parse "\x7b\"header\":\"server.kick\"\x7d" = .error (.TypeError none)
      ∧ parse "\x7b\"header\":\"play.queue.send\",\"queue\":[]\x7d" = .error (.TypeError none)
      ∧ parse "\x7b\"header\":\"play.status.send\",\"status\":1\x7d" = .error (.TypeError none)
      ∧ parse "\x7b\"header\":\"play.queue.move\",\"track_id\":\"a\",\"new_index\":0\x7d" =
        .error (.TypeError none)
      ∧ parse "\x7b\"header\":\"play.queue.remove\",\"track_id\":\"a\"\x7d" = .error (.TypeError none)
      ∧ parse "\x7b\"header\":\"error.url.invalid\"\x7d" = .error (.TypeError none)
      ∧ parse "\x7b\"header\":\"error.queue.full\"\x7d" = .error (.TypeError none) := by
  refine ⟨rfl, rfl, rfl, rfl, rfl, rfl, rfl, rfl⟩

/-! ## message.js: EventDispatcher -/

/-- C7. A handler stored for `auth.fail` or for `auth.succeed` (the two kinds for which
an `EventDispatcher` holds a handler) is what `dispatch` runs on a message of that
kind, with that message; on the recording dispatcher the call log grows by exactly one
entry, naming the handler of the kind and the message. -/
theorem dispatch_invokes_handler_once {σ : Type} (d : EventDispatcher σ)
    (h : Message → σ → Except JSError σ) (props : List (String × JSValue)) (s : σ)
    (log : List (String × Message)) :
    ({ d with onAuthFail := h }).dispatch (.message ⟨.AuthFailMessage, props⟩) s =
        h ⟨.AuthFailMessage, props⟩ s
      ∧ ({ d with onAuthSucceed := h }).dispatch (.message ⟨.AuthSucceedMessage, props⟩) s =
        h ⟨.AuthSucceedMessage, props⟩ s
      ∧ EventDispatcher.recording.dispatch (.message ⟨.AuthFailMessage, props⟩) log =
        .ok (log ++ [("onAuthFail", ⟨.AuthFailMessage, props⟩)])
      ∧ EventDispatcher.recording.dispatch (.message ⟨.AuthSucceedMessage, props⟩) log =
        .ok (log ++ [("onAuthSucceed", ⟨.AuthSucceedMessage, props⟩)]) := by
  refine ⟨rfl, rfl, rfl, rfl⟩

/-- C8, counterexample. On a freshly constructed dispatcher, dispatching an `auth.fail`
message completes without an error and leaves the state as it was. -/
theorem fresh_dispatcher_swallows_auth_fail :
    (EventDispatcher.new : EventDispatcher Nat).dispatch
      (.message (MessageClass.AuthFailMessage.new [])) 0 = .ok 0 := by
  rfl

/-- C8, amended. For `auth.code`, `auth.session` and `play.url`, the valid kinds without
a handler property, `dispatch` throws the error of its `default` branch on every
dispatcher; for `auth.fail` and `auth.succeed` a freshly constructed dispatcher holds
the handler `m => {}` and `dispatch` completes with the state unchanged. -/
theorem dispatch_unhandled_kinds {σ : Type} (d : EventDispatcher σ)
    (props : List (String × JSValue)) (s : σ) :
    d.dispatch (.message ⟨.AuthCodeMessage, props⟩) s = .error (.InternalError notImplemented)
      ∧ d.dispatch (.message ⟨.AuthSessionMessage, props⟩) s =
        .error (.InternalError notImplemented)
      ∧ d.dispatch (.message ⟨.PlayURLMessage, props⟩) s =
        .error (.InternalError notImplemented)
      ∧ (EventDispatcher.new : EventDispatcher σ).dispatch
        (.message ⟨.AuthFailMessage, props⟩) s = .ok s
      ∧ (EventDispatcher.new : EventDispatcher σ).dispatch
        (.message ⟨.AuthSucceedMessage, props⟩) s = .ok s := by
  refine ⟨rfl, rfl, rfl, rfl, rfl⟩

/-! ## LivePlaylist.js: queue -/

/-- Moving inside the array: no padding, the element is taken out and put in. -/
theorem arrayMove_map_some {α : Type} (q : List α) (i j : Nat) (hi : i < q.length)
    (hj : j < q.length) :
    arrayMove (q.map some) i j =
      ((q.eraseIdx i).take j ++ q[i] :: (q.eraseIdx i).drop j).map some := by
  have hnot : ¬ j ≥ (q.map some).length := by simpa using hj
  simp only [arrayMove, hnot, if_false]
  simp [List.eraseIdx_eq_take_drop_succ, List.getElem?_eq_getElem hi, List.map_take,
    List.map_drop]

theorem perm_eraseIdx_insert {α : Type} (q : List α) (i j : Nat) (hi : i < q.length) :
    ((q.eraseIdx i).take j ++ q[i] :: (q.eraseIdx i).drop j).Perm q := by
  have h1 : ((q.eraseIdx i).take j ++ q[i] :: (q.eraseIdx i).drop j).Perm
      (q[i] :: q.eraseIdx i) := by
    have := @List.perm_middle _ q[i] ((q.eraseIdx i).take j) ((q.eraseIdx i).drop j)
    rwa [List.take_append_drop] at this
  have h2 : (q[i] :: q.eraseIdx i).Perm q := by
    have h3 : q = q.take i ++ q[i] :: q.drop (i + 1) := by
      rw [List.getElem_cons_drop, List.take_append_drop]
    rw [List.eraseIdx_eq_take_drop_succ]
    exact (List.perm_middle.symm.trans (by rw [← h3]))
  exact h1.trans h2

theorem length_take_eraseIdx {α : Type} (q : List α) (i j : Nat) (hi : i < q.length)
    (hj : j < q.length) : ((q.eraseIdx i).take j).length = j := by
  simp [List.length_eraseIdx, hi]
  omega

theorem eraseIdx_take_cons_drop {α : Type} (x : α) (e : List α) :
    ∀ j : Nat, j ≤ e.length → (e.take j ++ x :: e.drop j).eraseIdx j = e := by
  induction e with
  | nil => intro j hj; simp at hj; subst hj; rfl
  | cons a e ih =>
    intro j hj
    cases j with
    | zero => rfl
    | succ j =>
      have := ih j (by simpa using hj)
      simp [List.eraseIdx, this]

theorem map_eraseIdx {α β : Type} (f : α → β) (l : List α) :
    ∀ i : Nat, (l.map f).eraseIdx i = (l.eraseIdx i).map f := by
  induction l with
  | nil => intro i; rfl
  | cons a l ih =>
    intro i
    cases i with
    | zero => rfl
    | succ i => simp [List.eraseIdx, ih]

/-- C9. For every queue `q` of tracks and all indices `oldIndex`, `newIndex` below its
length, `queueMove(oldIndex, newIndex)` sends a move message with the id of
`q[oldIndex]` and `newIndex` and sets the queue to `q` with that track taken out and put
in at position `newIndex`: a permutation of `q` that has the track at `newIndex` and,
without it, the other tracks in their order in `q`; `[a, b, c]` with index 2 moved to 0
is `[c, a, b]`; a following `handleQueueChange(s)` leaves the queue equal to `s`. -/
theorem queueMove_reorders_then_replace (c : LivePlaylist) (q : List Track)
    (oldIndex newIndex : Nat) (hq : c.queue = q.map some) (hold : oldIndex < q.length)
    (hnew : newIndex < q.length) :
    ∃ c2 : LivePlaylist, c.queueMove oldIndex newIndex = .ok c2
      ∧ c2.sent = c.sent ++ [OutboundMessage.PlayQueueMoveMessage q[oldIndex].id newIndex]
      ∧ c2.queue = ((q.eraseIdx oldIndex).take newIndex ++
          q[oldIndex] :: (q.eraseIdx oldIndex).drop newIndex).map some
      ∧ c2.queue.Perm c.queue
      ∧ c2.queue[newIndex]? = some (some q[oldIndex])
      ∧ c2.queue.eraseIdx newIndex = c.queue.eraseIdx oldIndex
      ∧ (∀ a b d : Track, arrayMove [some a, some b, some d] 2 0 = [some d, some a, some b])
      ∧ ∀ (s : List (Option Track)) (now : ℚ), (c2.handleQueueChange s now).queue = s := by
  have hget : c.queue.get? oldIndex = some (some q[oldIndex]) := by
    simp [hq, List.getElem?_eq_getElem hold]
  have hlen := length_take_eraseIdx q oldIndex newIndex hold hnew
  refine ⟨{ c with
      sent := c.sent ++ [OutboundMessage.PlayQueueMoveMessage q[oldIndex].id newIndex],
      queue := arrayMove c.queue oldIndex newIndex }, ?_, rfl, ?_, ?_, ?_, ?_, ?_, ?_⟩
  · simp only [LivePlaylist.queueMove, hget]
  · simp only [hq, arrayMove_map_some q oldIndex newIndex hold hnew]
  · simp only [hq, arrayMove_map_some q oldIndex newIndex hold hnew]
    exact (perm_eraseIdx_insert q oldIndex newIndex hold).map some
  · simp only [hq, arrayMove_map_some q oldIndex newIndex hold hnew]
    rw [List.getElem?_map, List.getElem?_append_right (by omega)]
    simp [hlen]
  · simp only [hq, arrayMove_map_some q oldIndex newIndex hold hnew]
    rw [map_eraseIdx, map_eraseIdx, eraseIdx_take_cons_drop]
    rw [List.length_eraseIdx, if_pos hold]
    omega
  · intro a b d; rfl
  · intro s now; rfl

/-- Witness of `queueMove_reorders_then_replace`: in the queue `[A, B, C]`, moving
index 2 to index 0 sends the move of `C` and shows `[C, A, B]`. -/
theorem queueMove_reorders_then_replace_witness :
    ∃ c2 : LivePlaylist, LivePlaylist.sample.queueMove 2 0 = .ok c2
      ∧ c2.sent = [OutboundMessage.PlayQueueMoveMessage "C" 0]
      ∧ c2.queue = [some (sampleTrack "C"), some (sampleTrack "A"), some (sampleTrack "B")] := by
  obtain ⟨c2, h1, h2, h3, -⟩ := queueMove_reorders_then_replace LivePlaylist.sample
    [sampleTrack "A", sampleTrack "B", sampleTrack "C"] 2 0 rfl (by decide) (by decide)
  exact ⟨c2, h1, h2, h3⟩

/-! ## LivePlaylist.js: progress clock -/

/-- C10, counterexample. On a freshly constructed playlist, `startPlayProgress` whose
own clock reading is 1000 and whose first `update` reads 1001 for the displayed time
ends with `playCurrentTime - playStartTime = 1`. -/
theorem startPlayProgress_elapsed_nonzero :
    (LivePlaylist.new.startPlayProgress 1000 1000 1001).elapsed = 1
      ∧ (LivePlaylist.new.startPlayProgress 1000 1000 1001).elapsed ≠ 0 := by
  have h : (LivePlaylist.new.startPlayProgress 1000 1000 1001).elapsed = 1 := by
    norm_num [LivePlaylist.startPlayProgress, LivePlaylist.update,
      LivePlaylist.pausePlayProgress, LivePlaylist.new, LivePlaylist.elapsed,
      LivePlaylist.setTimeout]
  exact ⟨h, by rw [h]; norm_num⟩

/-- C10, amended. After `handleQueueChange`, for every prior state and clock reading,
`playCurrentTime - playStartTime = 0`. After `startPlayProgress` the difference is 0
while `skipPlayUpdateTask` is set, and otherwise `now2 - now0`: the advance of
`performance.now()` from the reading stored in `playStartTime` to the reading that the
first call of `update` stores in `playCurrentTime`. -/
theorem elapsed_after_reset_and_start (c : LivePlaylist) (newQueue : List (Option Track))
    (now now0 now1 now2 : ℚ) :
    (c.handleQueueChange newQueue now).elapsed = 0
      ∧ (c.startPlayProgress now0 now1 now2).elapsed =
        if c.skipPlayUpdateTask then 0 else now2 - now0 := by
  constructor
  · simp [LivePlaylist.handleQueueChange, LivePlaylist.resetPlayProgress, LivePlaylist.elapsed]
  · cases ht : c.playUpdateTask <;> cases hs : c.skipPlayUpdateTask <;>
      simp [LivePlaylist.startPlayProgress, LivePlaylist.update, LivePlaylist.pausePlayProgress,
        LivePlaylist.clearInterval, LivePlaylist.setTimeout, LivePlaylist.elapsed, ht, hs]

/-! ## LivePlaylist.js: wake-up of the progress clock -/

/-- The timeout that `update` sets is added to the pending ones; its delay is
`1000 - now1 % 1000 + playStartTime % 1000`. -/
theorem update_timers (c : LivePlaylist) (now1 now2 : ℚ) :
    (c.update now1 now2).timers =
      c.timers ++ [(c.nextTimer, 1000 - jsRem now1 1000 + jsRem c.playStartTime 1000)] := by
  cases h : c.skipPlayUpdateTask <;> simp [LivePlaylist.update, LivePlaylist.setTimeout, h]

/-- For clock readings that are not negative, the wake-up is later than `now` and a
whole number of seconds after the play start time. -/
theorem wakeup_on_boundary (s now : ℚ) (hs : 0 ≤ s) (hn : 0 ≤ now) :
    now < now + (1000 - jsRem now 1000 + jsRem s 1000)
      ∧ now + (1000 - jsRem now 1000 + jsRem s 1000) - s =
        1000 * ((⌊now / 1000⌋ + 1 - ⌊s / 1000⌋ : ℤ) : ℚ) := by
  have h1 : (0 : ℚ) ≤ now / 1000 := by positivity
  have h2 : (0 : ℚ) ≤ s / 1000 := by positivity
  simp only [jsRem, h1, h2, if_true]
  have f1 := Int.floor_le (now / 1000)
  have f2 := Int.lt_floor_add_one (now / 1000)
  have f3 := Int.floor_le (s / 1000)
  constructor
  · linarith
  · push_cast; ring

/-- When `now % 1000` is not below `s % 1000`, the wake-up is the least instant after
`now` that is a whole number of seconds after the play start time `s`. -/
theorem wakeup_least_of_le (s now t : ℚ) (k : ℤ) (hs : 0 ≤ s) (hn : 0 ≤ now)
    (h : jsRem s 1000 ≤ jsRem now 1000) (ht : now < t) (hk : t - s = 1000 * (k : ℚ)) :
    now + (1000 - jsRem now 1000 + jsRem s 1000) ≤ t := by
  obtain ⟨-, hb⟩ := wakeup_on_boundary s now hs hn
  have hd : (1000 : ℚ) * ((k - (⌊now / 1000⌋ + 1 - ⌊s / 1000⌋) : ℤ) : ℚ) > -1000 := by
    push_cast at hb ⊢
    linarith
  have hk2 : (-1 : ℤ) < k - (⌊now / 1000⌋ + 1 - ⌊s / 1000⌋) := by
    have : ((-1 : ℤ) : ℚ) < ((k - (⌊now / 1000⌋ + 1 - ⌊s / 1000⌋) : ℤ) : ℚ) := by
      push_cast at hd ⊢
      linarith
    exact_mod_cast this
  have hk3 : (0 : ℤ) ≤ k - (⌊now / 1000⌋ + 1 - ⌊s / 1000⌋) := by omega
  have hk4 : (0 : ℚ) ≤ ((k - (⌊now / 1000⌋ + 1 - ⌊s / 1000⌋) : ℤ) : ℚ) := by exact_mod_cast hk3
  push_cast at hb hk4
  linarith
/-- C11, the code at the failing input. With `playStartTime = 999` and a timeout that
fires 2 ms late, at the reading `now = 2001`, `update` sets a timeout of 1998 ms, which
fires at 3999; the instant 2999 is later than `now`, a whole number of seconds after the
start and earlier than 3999, so the wake-up is not the least such instant. -/
theorem update_delay_skips_boundary :
    (({ LivePlaylist.new with playStartTime := 999 } : LivePlaylist).update 2001 2001).timers =
        [(1, 1998)]
      ∧ (2001 : ℚ) < 2999 ∧ (2999 : ℚ) - 999 = 2 * 1000 ∧ (2999 : ℚ) < 2001 + 1998 := by
  refine ⟨?_, by norm_num, by norm_num, by norm_num⟩
  rw [update_timers]
  norm_num [LivePlaylist.new, jsRem]

theorem pausePlayProgress_timers (c : LivePlaylist) (h : c.oneWakeup) :
    c.pausePlayProgress.timers = [] := by
  rcases h with h | ⟨id, d, h1, h2⟩
  · cases ht : c.playUpdateTask <;>
      simp [LivePlaylist.pausePlayProgress, LivePlaylist.clearInterval, ht, h]
  · simp [LivePlaylist.pausePlayProgress, LivePlaylist.clearInterval, h1, h2]

theorem update_oneWakeup (c : LivePlaylist) (now1 now2 : ℚ) (h : c.timers = []) :
    (c.update now1 now2).oneWakeup := by
  right
  refine ⟨c.nextTimer, 1000 - jsRem now1 1000 + jsRem c.playStartTime 1000, ?_, ?_⟩
  · cases hs : c.skipPlayUpdateTask <;>
      simp [LivePlaylist.update, LivePlaylist.setTimeout, hs, h]
  · cases hs : c.skipPlayUpdateTask <;>
      simp [LivePlaylist.update, LivePlaylist.setTimeout, hs]

theorem startPlayProgress_oneWakeup (c : LivePlaylist) (now0 now1 now2 : ℚ)
    (h : c.oneWakeup) : (c.startPlayProgress now0 now1 now2).oneWakeup := by
  have hp := pausePlayProgress_timers c h
  have hu := update_oneWakeup
    { c.pausePlayProgress with playStartTime := now0, playCurrentTime := now0 } now1 now2 hp
  exact hu

theorem timerFired_oneWakeup (c : LivePlaylist) (id : Nat) (now1 now2 : ℚ)
    (h : c.oneWakeup) : (c.timerFired id now1 now2).oneWakeup := by
  unfold LivePlaylist.timerFired
  split_ifs with hany
  · apply update_oneWakeup
    rcases h with h | ⟨id2, d, h1, h2⟩
    · simp [h]
    · simp only [h1, List.any_cons, List.any_nil, Bool.or_false, beq_iff_eq] at hany
      simp [h1, hany]
  · exact h

theorem handleSortEnd_keeps_timers (st : LivePlaylist × HandlerRegistry)
    (oldIndex newIndex : Nat) :
    (LivePlaylist.step st (.handleSortEnd oldIndex newIndex)).1.timers = st.1.timers
      ∧ (LivePlaylist.step st (.handleSortEnd oldIndex newIndex)).1.playUpdateTask =
        st.1.playUpdateTask := by
  simp only [LivePlaylist.step, LivePlaylist.handleSortEnd, LivePlaylist.queueMove]
  cases hq : st.1.queue.get? oldIndex with
  | none => simp
  | some x => cases x <;> simp

theorem step_oneWakeup (st : LivePlaylist × HandlerRegistry) (e : PlaylistEvent)
    (h : st.1.oneWakeup) : (LivePlaylist.step st e).1.oneWakeup := by
  cases e with
  | startPlayProgress now0 now1 now2 => exact startPlayProgress_oneWakeup _ _ _ _ h
  | pausePlayProgress => exact Or.inl (pausePlayProgress_timers _ h)
  | timerFired id now1 now2 => exact timerFired_oneWakeup _ _ _ _ h
  | handleSortStart => exact h
  | handleSortEnd oldIndex newIndex =>
    obtain ⟨h1, h2⟩ := handleSortEnd_keeps_timers st oldIndex newIndex
    simpa only [LivePlaylist.oneWakeup, h1, h2] using h
  | handleQueueChange newQueue now => exact h
  | queueRemove trackId => exact h
  | componentWillUnmount =>
    exact Or.inl (pausePlayProgress_timers { st.1 with queue := [] } h)

theorem run_oneWakeup (events : List PlaylistEvent) :
    ∀ st : LivePlaylist × HandlerRegistry, st.1.oneWakeup →
      (LivePlaylist.run st events).1.oneWakeup := by
  induction events with
  | nil => intro st h; exact h
  | cons e events ih =>
    intro st h
    exact ih _ (step_oneWakeup st e h)

theorem step_timers_nil (st : LivePlaylist × HandlerRegistry) (e : PlaylistEvent)
    (hs : e.isStart = false) (h : st.1.timers = []) :
    (LivePlaylist.step st e).1.timers = [] := by
  cases e with
  | startPlayProgress now0 now1 now2 => simp [PlaylistEvent.isStart] at hs
  | pausePlayProgress => exact pausePlayProgress_timers _ (Or.inl h)
  | timerFired id now1 now2 => simp [LivePlaylist.step, LivePlaylist.timerFired, h]
  | handleSortStart => exact h
  | handleSortEnd oldIndex newIndex =>
    rw [(handleSortEnd_keeps_timers st oldIndex newIndex).1]
    exact h
  | handleQueueChange newQueue now => exact h
  | queueRemove trackId => exact h
  | componentWillUnmount =>
    exact pausePlayProgress_timers { st.1 with queue := [] } (Or.inl h)

theorem run_timers_nil (events : List PlaylistEvent) :
    ∀ st : LivePlaylist × HandlerRegistry, (∀ e ∈ events, e.isStart = false) →
      st.1.timers = [] → (LivePlaylist.run st events).1.timers = [] := by
  induction events with
  | nil => intro st _ h; exact h
  | cons e events ih =>
    intro st hs h
    exact ih _ (fun e2 h2 => hs e2 (by simp [h2]))
      (step_timers_nil st e (hs e (by simp)) h)

theorem withoutStart_isStart (events : List PlaylistEvent) :
    ∀ e ∈ withoutStart events, e.isStart = false := by
  intro e he
  simpa [withoutStart] using (List.mem_filter.mp he).2

/-- C12. In every state that a mounted playlist reaches by a sequence of
`startPlayProgress`, `pausePlayProgress`, timer firings, drag start and end, queue
changes, removals and unmount, at most one timeout is pending; after `pausePlayProgress`
and after `componentWillUnmount` none is pending, and none becomes pending during any
further events that are not `startPlayProgress`. -/
theorem at_most_one_wakeup_pending (r : HandlerRegistry) (events later : List PlaylistEvent) :
    (LivePlaylist.run (LivePlaylist.new.componentDidMount r) events).1.timers.length ≤ 1
      ∧ (LivePlaylist.step (LivePlaylist.run (LivePlaylist.new.componentDidMount r) events)
          .pausePlayProgress).1.timers = []
      ∧ (LivePlaylist.step (LivePlaylist.run (LivePlaylist.new.componentDidMount r) events)
          .componentWillUnmount).1.timers = []
      ∧ (LivePlaylist.run
          (LivePlaylist.step (LivePlaylist.run (LivePlaylist.new.componentDidMount r) events)
            .pausePlayProgress) (withoutStart later)).1.timers = []
      ∧ (LivePlaylist.run
          (LivePlaylist.step (LivePlaylist.run (LivePlaylist.new.componentDidMount r) events)
            .componentWillUnmount) (withoutStart later)).1.timers = [] := by
  have hinv := run_oneWakeup events (LivePlaylist.new.componentDidMount r) (Or.inl rfl)
  have hp : (LivePlaylist.step (LivePlaylist.run (LivePlaylist.new.componentDidMount r) events)
      .pausePlayProgress).1.timers = [] := pausePlayProgress_timers _ hinv
  have hu : (LivePlaylist.step (LivePlaylist.run (LivePlaylist.new.componentDidMount r) events)
      .componentWillUnmount).1.timers = [] :=
    pausePlayProgress_timers
      { (LivePlaylist.run (LivePlaylist.new.componentDidMount r) events).1 with queue := [] }
      hinv
  refine ⟨?_, hp, hu, run_timers_nil _ _ (withoutStart_isStart later) hp,
    run_timers_nil _ _ (withoutStart_isStart later) hu⟩
  rcases hinv with h | ⟨id, d, h, -⟩ <;> simp [h]

/-! ## app.js: heartbeat -/

/-- No message changes the component: the dispatcher of `message.js` runs its own
handler properties, which are the no-op of its constructor, or throws. -/
theorem onmessage_eq (c : App) (data : String) : c.onmessage data = c := by
  unfold App.onmessage
  cases parse data with
  | error e => rfl
  | ok message =>
    obtain ⟨ctor, props⟩ := message
    cases ctor <;> rfl

theorem step_intervals (c : App) (e : AppEvent) (hi : c.intervals = [])
    (hs : c.heartbeatsSent = 0) :
    (c.step e).intervals = [] ∧ (c.step e).heartbeatsSent = 0 := by
  cases e with
  | message data => simp [App.step, onmessage_eq, hi, hs]
  | socketOpen => exact ⟨hi, hs⟩
  | socketClose =>
    cases hh : c.heartbeatInterval <;>
      simp [App.step, App.onSocketClose, App.clearInterval, hh, hi, hs]
  | intervalFired id => simp [App.step, App.intervalFired, hi, hs]

theorem run_intervals (events : List AppEvent) :
    ∀ c : App, c.intervals = [] → c.heartbeatsSent = 0 →
      (c.run events).intervals = [] ∧ (c.run events).heartbeatsSent = 0 := by
  induction events with
  | nil => intro c hi hs; exact ⟨hi, hs⟩
  | cons e events ih =>
    intro c hi hs
    obtain ⟨h1, h2⟩ := step_intervals c e hi hs
    exact ih _ h1 h2

theorem componentDidMount_intervals (socketThrows : Bool) :
    (App.new.componentDidMount socketThrows).intervals = []
      ∧ (App.new.componentDidMount socketThrows).heartbeatsSent = 0 := by
  cases socketThrows <;> exact ⟨rfl, rfl⟩

/-- The handler for `auth.succeed`, run once on a component without intervals, sets one
interval, and `onSocketClose` clears it. -/
theorem handleAuthSucceed_then_close (c : App) (m : Message) (hi : c.intervals = []) :
    (c.handleAuthSucceed m).intervals = [(c.nextTimer, 60000)]
      ∧ (c.handleAuthSucceed m).onSocketClose.intervals = [] := by
  simp [App.handleAuthSucceed, App.setInterval, App.onSocketClose, App.clearInterval, hi]

/-- The handler for `auth.succeed` does not clear the interval it set before: were it
run twice before the close, `onSocketClose` would clear only the second interval. No
event runs it, see `onmessage_eq`. -/
theorem handleAuthSucceed_twice_then_close (c : App) (m : Message) (hi : c.intervals = []) :
    ((c.handleAuthSucceed m).handleAuthSucceed m).onSocketClose.intervals =
      [(c.nextTimer, 60000)] := by
  simp [App.handleAuthSucceed, App.setInterval, App.onSocketClose, App.clearInterval, hi]

/-- C13. For every sequence of inbound frames, socket events and interval firings on
a mounted `App`, with a close anywhere in it, no interval is scheduled after the close
and no heartbeat is handed to the socket, also when `auth.succeed` arrives twice before
the close: `dispatch` of `message.js` runs its own no-op handler for `auth.succeed`, so
no event sets an interval. Where the handler that sets the heartbeat interval has run
once, `onSocketClose` leaves no interval scheduled. -/
theorem no_heartbeat_after_close (socketThrows : Bool) (events later : List AppEvent)
    (m : Message) :
    ((App.new.componentDidMount socketThrows).run
        (events ++ AppEvent.socketClose :: later)).intervals = []
      ∧ ((App.new.componentDidMount socketThrows).run
        (events ++ AppEvent.socketClose :: later)).heartbeatsSent = 0
      ∧ ((App.new.componentDidMount socketThrows).run
        (events ++ [AppEvent.socketClose])).connection = .CLOSED
      ∧ parse authSucceedFrame =
        .ok ⟨.AuthSucceedMessage, [("username", .str "u"), ("session_handle", .str "h"),
          ("session_secret", .str "s")]⟩
      ∧ ((App.new.componentDidMount false).run
        [.socketOpen, .message authSucceedFrame, .message authSucceedFrame, .socketClose,
          .intervalFired 1]).heartbeatsSent = 0
      ∧ (((App.new.componentDidMount socketThrows).run events).handleAuthSucceed
          m).onSocketClose.intervals = [] := by
  obtain ⟨h0, h1⟩ := componentDidMount_intervals socketThrows
  obtain ⟨h2, h3⟩ := run_intervals (events ++ AppEvent.socketClose :: later) _ h0 h1
  obtain ⟨h4, -⟩ := run_intervals events _ h0 h1
  obtain ⟨h5, h6⟩ := componentDidMount_intervals false
  refine ⟨h2, h3, ?_, rfl, ?_, (handleAuthSucceed_then_close _ m h4).2⟩
  · simp only [App.run, List.foldl_append, List.foldl_cons, List.foldl_nil, App.step]
    cases hh : (List.foldl App.step (App.new.componentDidMount socketThrows)
        events).heartbeatInterval <;>
      simp [App.onSocketClose, App.clearInterval, hh]
  · exact (run_intervals _ _ h5 h6).2

/-! ## Handlers registered on mount and cleared on unmount -/

theorem lookupProp_clearMessageHandler (r : HandlerRegistry) (kind : String) :
    lookupProp (clearMessageHandler r kind) kind = none := by
  induction r with
  | nil => rfl
  | cons e r ih =>
    obtain ⟨k, h⟩ := e
    simp only [clearMessageHandler, List.filter_cons] at ih ⊢
    split_ifs with hk
    · have hne : k ≠ kind := by simpa using hk
      simpa [lookupProp, hne] using ih
    · exact ih

theorem lookupProp_clearMessageHandler_of_ne (r : HandlerRegistry) (kind other : String)
    (hne : kind ≠ other) :
    lookupProp (clearMessageHandler r other) kind = lookupProp r kind := by
  induction r with
  | nil => rfl
  | cons e r ih =>
    obtain ⟨k, v⟩ := e
    simp only [clearMessageHandler, List.filter_cons] at ih ⊢
    split_ifs with ho
    · by_cases hk : k = kind
      · simp [lookupProp, hk]
      · simpa [lookupProp, hk] using ih
    · have hko : k = other := by simpa using ho
      have hk : k ≠ kind := fun h => hne (h ▸ hko)
      simpa [lookupProp, hk] using ih

theorem lookupProp_setMessageHandler (r : HandlerRegistry) (kind : String) (h : Handler) :
    lookupProp (setMessageHandler r kind h) kind = some h := by
  induction r with
  | nil => simp [setMessageHandler, setProp, lookupProp]
  | cons e r ih =>
    obtain ⟨k, v⟩ := e
    simp only [setMessageHandler, setProp] at ih ⊢
    split_ifs with hk
    · simp [lookupProp, hk]
    · simpa [lookupProp, hk] using ih

/-- C14, the code at the failing input. After `SearchBox` is mounted and unmounted, on
any registry, the handler it registered for `error.queue.full` is still registered;
`App` and `LivePlaylist` leave no handler for any kind they registered. -/
theorem searchBox_leaves_queue_full_handler (r : HandlerRegistry) :
    lookupProp ((SearchBox.componentWillUnmount
        (SearchBox.componentDidMount SearchBox.new r).1
        (SearchBox.componentDidMount SearchBox.new r).2).2) "error.queue.full" =
        some .searchQueueFull
      ∧ lookupProp ((SearchBox.componentWillUnmount
        (SearchBox.componentDidMount SearchBox.new r).1
        (SearchBox.componentDidMount SearchBox.new r).2).2) "error.url.invalid" = none
      ∧ (∀ c : App, ∀ kind ∈ ["auth.fail", "auth.succeed", "server.kick"],
          lookupProp (c.componentDidMount false).componentWillUnmount.eventDispatcher kind = none)
      ∧ (∀ c : LivePlaylist, ∀ kind ∈ ["play.queue.send", "play.status.send"],
          lookupProp ((c.componentDidMount r).1.componentWillUnmount
            (c.componentDidMount r).2).2 kind = none) := by
  refine ⟨?_, lookupProp_clearMessageHandler _ _, ?_, ?_⟩
  · simp only [SearchBox.componentWillUnmount, SearchBox.componentDidMount]
    rw [lookupProp_clearMessageHandler_of_ne _ _ _ (by decide), lookupProp_setMessageHandler]
  · intro c kind hk
    simp only [List.mem_cons, List.mem_singleton, List.not_mem_nil, or_false] at hk
    rcases hk with rfl | rfl | rfl <;> rfl
  · intro c kind hk
    simp only [List.mem_cons, List.mem_singleton, List.not_mem_nil, or_false] at hk
    rcases hk with rfl | rfl
    · simp only [LivePlaylist.componentWillUnmount, LivePlaylist.componentDidMount]
      rw [lookupProp_clearMessageHandler_of_ne _ _ _ (by decide)]
      exact lookupProp_clearMessageHandler _ _
    · exact lookupProp_clearMessageHandler _ _

/-! ## file-upload.js: chunks -/

theorem uploadLoop_done (size stop : Nat) (h : size ≤ stop) : uploadLoop size stop = [] := by
  rw [uploadLoop]
  simp [Nat.not_lt.mpr h]

/-- Entered at a multiple of the chunk size, the loop sends the remaining chunks. -/
theorem uploadLoop_chunks (size : Nat) :
    ∀ n k : Nat, (size + 4095) / 4096 - k = n →
      uploadLoop size (4096 * k) =
        (List.range' k n).map fun i => (4096 * i, min (4096 * (i + 1)) size) := by
  intro n
  induction n with
  | zero =>
    intro k hk
    rw [uploadLoop_done size (4096 * k) (by omega)]
    rfl
  | succ n ih =>
    intro k hk
    have hlt : 4096 * k < size := by omega
    rw [uploadLoop]
    simp only [hlt, if_true, chunk_size, List.range'_succ, List.map_cons]
    have hmul : 4096 * (k + 1) = 4096 * k + 4096 := by ring
    by_cases hfull : 4096 * (k + 1) ≤ size
    · have hmin : min (4096 * k + 4096) size = 4096 * (k + 1) := by omega
      rw [hmin, ih (k + 1) (by omega)]
      simp [hmul, hmin]
    · have hmin : min (4096 * k + 4096) size = size := by omega
      have hn : n = 0 := by omega
      subst hn
      rw [hmin, uploadLoop_done size size (le_refl _)]
      simp [hmul, hmin]

/-- C15. For every file size `n` the upload loop ends, and the frames sent for the file
are the size announcement followed by the slices `[4096 i, min (4096 (i + 1)) n)` for
`i = 0, 1, ...` below `ceil(n / 4096)`, in this order: each slice is non-empty and at
most 4096 bytes long, every slice but the last is exactly 4096 bytes long and ends where
the next one starts, the last one ends at `n`, and no slice is sent for `n = 0`. -/
theorem upload_slices (n : Nat) :
    uploadFile n =
        UploadFrame.FileUploadStartMessage n ::
          (List.range ((n + 4095) / 4096)).map
            (fun i => UploadFrame.slice (4096 * i) (min (4096 * (i + 1)) n))
      ∧ (uploadLoop n 0).length = (n + 4095) / 4096
      ∧ uploadFile 0 = [UploadFrame.FileUploadStartMessage 0]
      ∧ ∀ i, i < (n + 4095) / 4096 →
          4096 * i < min (4096 * (i + 1)) n
          ∧ min (4096 * (i + 1)) n - 4096 * i ≤ 4096
          ∧ (i + 1 < (n + 4095) / 4096 → min (4096 * (i + 1)) n = 4096 * (i + 1))
          ∧ (i + 1 = (n + 4095) / 4096 → min (4096 * (i + 1)) n = n) := by
  have h := uploadLoop_chunks n ((n + 4095) / 4096) 0 (by omega)
  simp only [Nat.mul_zero] at h
  refine ⟨?_, ?_, ?_, ?_⟩
  · simp [uploadFile, h, List.range_eq_range', Function.comp_def]
  · simp [h]
  · simp [uploadFile, uploadLoop_done 0 0 (le_refl _)]
  · intro i hi
    refine ⟨by omega, by omega, fun _ => by omega, fun _ => by omega⟩

/-! ## TimestampFormat.js -/

theorem mathRound_intCast (s : Int) : mathRound (s : ℚ) = s := by
  unfold mathRound
  rw [Int.floor_int_add]
  norm_num

theorem padStart_seconds : ∀ k, k < 60 → padStart (toString k) 2 '0' = twoDigits k := by
  decide

theorem padStart_minutes : ∀ k, k < 60 →
    padStart (toString k ++ ":") 3 '0' = twoDigits k ++ ":" := by
  decide

/-- The text for a number of seconds that rounds and clamps to the natural number
`n`. -/
theorem TimestampFormat_of_round (x : ℚ) (n : Nat) (hn : (max (mathRound x) 0).toNat = n) :
    TimestampFormat x =
      if n < 3600 then toString (n / 60) ++ ":" ++ twoDigits (n % 60)
      else toString (n / 3600) ++ ":" ++ twoDigits (n / 60 % 60) ++ ":" ++ twoDigits (n % 60) := by
  have h1 := padStart_seconds (n % 60) (Nat.mod_lt _ (by norm_num))
  have h2 := padStart_minutes (n / 60 % 60) (Nat.mod_lt _ (by norm_num))
  simp only [TimestampFormat, hn, h1, h2]
  by_cases hlt : n < 3600
  · have hge : ¬ n ≥ 60 * 60 := by omega
    have hm : n / 60 % 60 = n / 60 := Nat.mod_eq_of_lt (by omega)
    simp [hlt, hge, hm]
  · have hge : n ≥ 60 * 60 := by omega
    simp [hlt, hge, String.append_assoc]

/-- C16. For every integer number of seconds `s`, with `n = max(s, 0)`,
`TimestampFormat(s)` is the decimal text of `n / 60`, a colon and the two digits of
`n % 60` when `n < 3600`, and the decimal text of `n / 3600`, a colon, the two digits of
`n / 60 % 60`, a colon and the two digits of `n % 60` otherwise; the fields give `n`
back; 3780 gives `1:03:00`, 374 gives `6:14`, 5 gives `0:05`. -/
theorem TimestampFormat_fields (s : Int) :
    TimestampFormat (s : ℚ) =
        (if (max s 0).toNat < 3600 then
          toString ((max s 0).toNat / 60) ++ ":" ++ twoDigits ((max s 0).toNat % 60)
        else
          toString ((max s 0).toNat / 3600) ++ ":" ++ twoDigits ((max s 0).toNat / 60 % 60)
            ++ ":" ++ twoDigits ((max s 0).toNat % 60))
      ∧ ((max s 0).toNat / 3600) * 3600 + ((max s 0).toNat / 60 % 60) * 60
          + (max s 0).toNat % 60 = (max s 0).toNat
      ∧ ((max s 0).toNat / 60) * 60 + (max s 0).toNat % 60 = (max s 0).toNat
      ∧ TimestampFormat 3780 = "1:03:00"
      ∧ TimestampFormat 374 = "6:14"
      ∧ TimestampFormat 5 = "0:05" := by
  refine ⟨?_, by omega, by omega, ?_, ?_, ?_⟩
  · exact TimestampFormat_of_round (s : ℚ) _ (by rw [mathRound_intCast])
  · rw [TimestampFormat_of_round 3780 3780 (by norm_num [mathRound]; rfl)]; decide
  · rw [TimestampFormat_of_round 374 374 (by norm_num [mathRound]; rfl)]; decide
  · rw [TimestampFormat_of_round 5 5 (by norm_num [mathRound]; rfl)]; decide

/-! ## LivePlaylist.js: progress bar -/

theorem playTimeRemaining_bounds (track : Track) (isFirstTrack : Bool) (start cur : ℚ)
    (hd : 0 ≤ track.duration) (ho : 0 ≤ track.offset) (he : start ≤ cur) :
    0 ≤ track.playTimeRemaining isFirstTrack start cur
      ∧ track.playTimeRemaining isFirstTrack start cur ≤ max track.duration 1 := by
  have hD : track.duration ≤ max track.duration 1 := le_max_left _ _
  have hD0 : (0 : ℚ) ≤ max track.duration 1 := le_trans hd hD
  have hel : 0 ≤ (cur - start) / 1000 := by
    apply div_nonneg <;> linarith
  cases isFirstTrack
  · simp only [Track.playTimeRemaining, Bool.false_eq_true, if_false]
    exact ⟨le_max_right _ _, max_le (by linarith) hD0⟩
  · simp only [Track.playTimeRemaining, if_true]
    exact ⟨le_max_right _ _, max_le (by linarith) hD0⟩

theorem playTimeRemaining_antitone (track : Track) (isFirstTrack : Bool) (start cur cur2 : ℚ)
    (h : cur ≤ cur2) :
    track.playTimeRemaining isFirstTrack start cur2 ≤
      track.playTimeRemaining isFirstTrack start cur := by
  cases isFirstTrack
  · simp [Track.playTimeRemaining]
  · simp only [Track.playTimeRemaining, if_true]
    apply max_le_max _ (le_refl _)
    have : (cur - start) / 1000 ≤ (cur2 - start) / 1000 := by
      apply div_le_div_of_nonneg_right <;> linarith
    linarith

/-- C17. For every track with `duration ≥ 0` and `offset ≥ 0`, first in the queue or
not, and every elapsed time `(playCurrentTime - playStartTime) / 1000 ≥ 0`, the
fraction `playTimeProgress = 1 - playTimeRemaining / max(duration, 1)` is at least 0 and
at most 1, and it does not decrease when `playCurrentTime` grows. -/
theorem playTimeProgress_bounds_monotone (track : Track) (isFirstTrack : Bool)
    (playStartTime playCurrentTime later : ℚ)
    (hd : 0 ≤ track.duration) (ho : 0 ≤ track.offset)
    (he : playStartTime ≤ playCurrentTime) (hl : playCurrentTime ≤ later) :
    0 ≤ track.playTimeProgress isFirstTrack playStartTime playCurrentTime
      ∧ track.playTimeProgress isFirstTrack playStartTime playCurrentTime ≤ 1
      ∧ track.playTimeProgress isFirstTrack playStartTime playCurrentTime ≤
        track.playTimeProgress isFirstTrack playStartTime later := by
  obtain ⟨h0, h1⟩ := playTimeRemaining_bounds track isFirstTrack playStartTime playCurrentTime
    hd ho he
  have hanti := playTimeRemaining_antitone track isFirstTrack playStartTime playCurrentTime
    later hl
  have hpos : (0 : ℚ) < max track.duration 1 := lt_of_lt_of_le one_pos (le_max_right _ _)
  simp only [Track.playTimeProgress]
  refine ⟨?_, ?_, ?_⟩
  · have := (div_le_one hpos).mpr h1
    linarith
  · have := div_nonneg h0 hpos.le
    linarith
  · have := div_le_div_of_nonneg_right hanti hpos.le
    linarith

/-- Witness of `playTimeProgress_bounds_monotone`: the first track, ten seconds long,
after 4 and after 5 seconds. -/
theorem playTimeProgress_bounds_monotone_witness :
    0 ≤ (sampleTrack "A").playTimeProgress true 0 4000
      ∧ (sampleTrack "A").playTimeProgress true 0 4000 ≤ 1
      ∧ (sampleTrack "A").playTimeProgress true 0 4000 ≤
        (sampleTrack "A").playTimeProgress true 0 5000 :=
  playTimeProgress_bounds_monotone (sampleTrack "A") true 0 4000 5000
    (by norm_num [sampleTrack]) (by norm_num [sampleTrack]) (by norm_num) (by norm_num)

/-! ## message.js: the guard of dispatch -/

/-- C18, the code at the failing inputs. For the number 5 `dispatch` throws the error of
its `default` branch, for `null` the runtime `TypeError` of reading `.constructor`; for
no value that is not a message does it throw the `TypeError` of its guard. -/
theorem dispatch_guard_never_throws {σ : Type} (d : EventDispatcher σ) (v : JSValue) (s : σ) :
    d.dispatch (.value (.num 5)) s = .error (.InternalError notImplemented)
      ∧ d.dispatch (.value .null) s = .error (.TypeError none)
      ∧ d.dispatch (.value v) s ≠ .error (.TypeError (some requiresSubclass)) := by
  refine ⟨rfl, rfl, ?_⟩
  cases v <;> simp [EventDispatcher.dispatch, instanceofAbstractMessage]

end Uitabot
